import Mathlib

/-!
Verification of the deterministic narrative-intelligence core of DraftSmith:
the entity extractor (src/services/intelligence/entityExtractor.ts) and the
contradiction detector.  The TypeScript code is shallowly embedded: strings
are lists of characters, the JavaScript regular-expression patterns are
rendered as an explicit backtracking engine with JS priority semantics
(leftmost match, left-biased alternation, greedy and lazy repetition, the
empty-iteration stopping rule of the star), insertion-ordered Map objects
become association lists, and Math.random identifier generation becomes an
abstract injective stream of natural numbers.  A thrown exception is
modelled by Option.none.
-/

set_option autoImplicit false

namespace DraftSmith

/-- JavaScript strings are modelled as lists of characters. -/
abbrev Str := List Char

/-- Decidable character order test as a Bool. -/
def cle (a b : Char) : Bool := decide (a ≤ b)

/-- ASCII upper-case letter, the class written A to Z in the source patterns. -/
def isUpperAZ (c : Char) : Bool := cle 'A' c && cle c 'Z'

/-- ASCII lower-case letter, the class written a to z in the source patterns. -/
def isLowerAZ (c : Char) : Bool := cle 'a' c && cle c 'z'

/-- ASCII letter of either case (what a letter class matches under the i flag). -/
def isLetterAZ (c : Char) : Bool := isUpperAZ c || isLowerAZ c

/-- ASCII digit. -/
def isDigitC (c : Char) : Bool := cle '0' c && cle c '9'

/-- JS word character, the class backslash-w: letters, digits, underscore. -/
def isWordChar (c : Char) : Bool := isLetterAZ c || isDigitC c || c == '_'

/-- JS whitespace, the class backslash-s (ASCII part plus no-break space;
the inputs considered here are ASCII). -/
def isJsSpace (c : Char) : Bool :=
  c == ' ' || c == '\t' || c == '\n' || c == '\r' ||
  c.toNat == 11 || c.toNat == 12 || c.toNat == 160

/-- The JS dot class: any character except line terminators. -/
def isDotChar (c : Char) : Bool :=
  !(c == '\n' || c == '\r' || c.toNat == 8232 || c.toNat == 8233)

/-- ASCII toLowerCase on one character, as String.prototype.toLowerCase acts
on the ASCII inputs of this development. -/
def jsLowerChar (c : Char) : Char :=
  if isUpperAZ c then Char.ofNat (c.toNat + 32) else c

/-- ASCII toUpperCase on one character. -/
def jsUpperChar (c : Char) : Char :=
  if isLowerAZ c then Char.ofNat (c.toNat - 32) else c

/-- String.prototype.toLowerCase. -/
def lowerS (s : Str) : Str := s.map jsLowerChar

/-- String.prototype.trim. -/
def jsTrim (s : Str) : Str :=
  ((s.dropWhile isJsSpace).reverse.dropWhile isJsSpace).reverse

/-- Is the first list a prefix of the second (decidable, executable). -/
def strPfx : Str → Str → Bool
  | [], _ => true
  | _ :: _, [] => false
  | c :: cs, d :: ds => c == d && strPfx cs ds

/-- String.prototype.includes: substring containment. -/
def strHas (hay pat : Str) : Bool :=
  if strPfx pat hay then true
  else
    match hay with
    | [] => false
    | _ :: t => strHas t pat

/-- String.prototype.endsWith. -/
def strEndsWith (s pat : Str) : Bool := strPfx pat.reverse s.reverse

/-- JS String.prototype.slice with both indices clamped to the string,
for the non-negative indices used by the source. -/
def seg (t : Str) (a b : Nat) : Str := (t.drop a).take (b - a)

/-- Convert a list of Lean string literals to the Str representation. -/
def strList (l : List String) : List Str := l.map String.toList

/-- The apostrophe character (written by code point to keep sources plain). -/
def apoC : Char := Char.ofNat 39

/-- The double-quote character. -/
def quotC : Char := Char.ofNat 34

-- ─────────────────────────────────────────────────────────────────────────
-- A small backtracking regular-expression engine with JS semantics.
-- ─────────────────────────────────────────────────────────────────────────

/-- Matcher state: current index into the subject, the previous character
(for word boundaries) and the remaining suffix of the subject. -/
structure Mst where
  i : Nat
  prev : Option Char
  rest : Str

/-- Capture list: entries (group, start, stop); the most recent write of a
group sits first, as JS keeps the last value written on the chosen path. -/
abbrev Caps := List (Nat × Nat × Nat)

/-- Regular-expression abstract syntax: exactly the constructs used by the
patterns of the embedded source. -/
inductive Rx where
  | eps
  | cls (p : Char → Bool)
  | seq (a b : Rx)
  | alt (a b : Rx)
  | opt (a : Rx)
  | star (a : Rx)
  | lazyStar (a : Rx)
  | capture (n : Nat) (a : Rx)
  | bos
  | wb

/-- Consume one character matching the class. -/
def stepChar (st : Mst) (p : Char → Bool) : Option Mst :=
  match st.rest with
  | [] => none
  | c :: cs => if p c then some ⟨st.i + 1, some c, cs⟩ else none

/-- Word-boundary test at the current state. -/
def atWb (st : Mst) : Bool :=
  let before := match st.prev with | none => false | some c => isWordChar c
  let after := match st.rest with | [] => false | c :: _ => isWordChar c
  before != after

/-- All ways a pattern can match starting at a state, in JS backtracking
priority order (head of the list = the alternative JS commits to).  The
star refuses empty iterations, as the JS engine stops a quantifier whose
body matched without consuming input.  Fuel bounds the recursion depth and
is chosen large enough never to run out on the inputs evaluated here. -/
def mrun (fuel : Nat) (r : Rx) (st : Mst) (caps : Caps) : List (Mst × Caps) :=
  match fuel with
  | 0 => []
  | fuel + 1 =>
    match r with
    | .eps => [(st, caps)]
    | .cls p =>
      match stepChar st p with
      | none => []
      | some st2 => [(st2, caps)]
    | .seq a b =>
      (mrun fuel a st caps).flatMap (fun sc => mrun fuel b sc.1 sc.2)
    | .alt a b => mrun fuel a st caps ++ mrun fuel b st caps
    | .opt a => mrun fuel a st caps ++ [(st, caps)]
    | .star a =>
      ((mrun fuel a st caps).filter (fun sc => st.i < sc.1.i)).flatMap
        (fun sc => mrun fuel (.star a) sc.1 sc.2) ++ [(st, caps)]
    | .lazyStar a =>
      (st, caps) ::
        ((mrun fuel a st caps).filter (fun sc => st.i < sc.1.i)).flatMap
          (fun sc => mrun fuel (.lazyStar a) sc.1 sc.2)
    | .capture n a =>
      (mrun fuel a st caps).map (fun sc => (sc.1, (n, st.i, sc.1.i) :: sc.2))
    | .bos => if st.i == 0 then [(st, caps)] else []
    | .wb => if atWb st then [(st, caps)] else []

/-- Structural size of a pattern, used to compute a safe fuel value. -/
def rxSize : Rx → Nat
  | .eps | .bos | .wb => 1
  | .cls _ => 1
  | .seq a b | .alt a b => rxSize a + rxSize b + 1
  | .opt a | .star a | .lazyStar a | .capture _ a => rxSize a + 1

/-- One recorded match: start index, end index, captures. -/
structure MatchRes where
  index : Nat
  stop : Nat
  caps : Caps
deriving DecidableEq

/-- Text of capture group n, or none when the group did not participate
(the JS value undefined). -/
def MatchRes.grp? (m : MatchRes) (t : Str) (n : Nat) : Option Str :=
  match m.caps.find? (fun g => g.1 == n) with
  | none => none
  | some g => some (seg t g.2.1 g.2.2)

/-- Text of the whole match (the JS value match[0]). -/
def MatchRes.whole (m : MatchRes) (t : Str) : Str := seg t m.index m.stop

/-- Find the leftmost match at or after the given state. -/
def scanFrom (r : Rx) (fuel : Nat) : Nat → Option Char → Str → Option (Nat × Mst × Caps)
  | i, prev, [] =>
    match mrun fuel r ⟨i, prev, []⟩ [] with
    | res :: _ => some (i, res.1, res.2)
    | [] => none
  | i, prev, c :: cs =>
    match mrun fuel r ⟨i, prev, c :: cs⟩ [] with
    | res :: _ => some (i, res.1, res.2)
    | [] => scanFrom r fuel (i + 1) (some c) cs

/-- The exec loop of a global regex: repeatedly take the leftmost match and
resume at its end (advancing one character on an empty match, which none of
the embedded patterns can produce). -/
def execLoop (r : Rx) (fuel : Nat) : Nat → Nat → Option Char → Str → List MatchRes
  | 0, _, _, _ => []
  | gas + 1, i, prev, rest =>
    match scanFrom r fuel i prev rest with
    | none => []
    | some (idx, endSt, caps) =>
      if idx < endSt.i then
        ⟨idx, endSt.i, caps⟩ :: execLoop r fuel gas endSt.i endSt.prev endSt.rest
      else
        match endSt.rest with
        | [] => [⟨idx, endSt.i, caps⟩]
        | c :: cs => ⟨idx, endSt.i, caps⟩ :: execLoop r fuel gas (endSt.i + 1) (some c) cs

/-- All matches of a pattern over a subject, in the order the source
while-exec loops see them. -/
def execAll (r : Rx) (t : Str) : List MatchRes :=
  execLoop r ((rxSize r + 2) * (t.length + 2)) (t.length + 1) 0 none t

/-- Does the pattern match anywhere (the JS test method, no g flag). -/
def rxTest (r : Rx) (t : Str) : Bool :=
  match scanFrom r ((rxSize r + 2) * (t.length + 2)) 0 none t with
  | some _ => true
  | none => false

-- Pattern-building helpers.

/-- Single literal character. -/
def rxChr (c : Char) : Rx := .cls (fun d => d == c)

/-- Case-sensitive literal word. -/
def rxLit (s : Str) : Rx := s.foldr (fun c r => .seq (rxChr c) r) .eps

/-- Case-insensitive literal word (the i flag). -/
def rxLitCi (s : Str) : Rx :=
  s.foldr (fun c r => .seq (.cls (fun d => jsLowerChar d == jsLowerChar c)) r) .eps

/-- Left-biased alternation of a non-empty list, in source order. -/
def rxAlts : List Rx → Rx
  | [] => .cls (fun _ => false)
  | [r] => r
  | r :: rs => .alt r (rxAlts rs)

/-- One or more repetitions (the plus quantifier). -/
def rxPlus (r : Rx) : Rx := .seq r (.star r)

/-- Alternation of literal words, case-insensitively when ci is true. -/
def rxWords (ci : Bool) (ws : List String) : Rx :=
  rxAlts (ws.map (fun w => if ci then rxLitCi w.toList else rxLit w.toList))

-- ─────────────────────────────────────────────────────────────────────────
-- Pattern library and lexicons (entityExtractor.ts, top of file).
-- ─────────────────────────────────────────────────────────────────────────

/-- FALSE_POSITIVES: common words that look like names but are not. -/
def FALSE_POSITIVES : List Str := strList [
  "the", "a", "an", "this", "that", "these", "those", "it", "they", "we", "i",
  "he", "she", "him", "her", "his", "hers", "their", "our", "my", "your",
  "monday", "tuesday", "wednesday", "thursday", "friday", "saturday", "sunday",
  "january", "february", "march", "april", "may", "june", "july", "august",
  "september", "october", "november", "december",
  "morning", "afternoon", "evening", "night", "day", "week", "month", "year",
  "north", "south", "east", "west",
  "chapter", "part", "book", "section", "act", "scene",
  "said", "asked", "replied", "answered", "thought", "knew", "felt", "saw",
  "but", "and", "or", "if", "when", "then", "now", "here", "there",
  "yes", "no", "maybe", "perhaps", "certainly", "definitely",
  "one", "two", "three", "four", "five", "first", "second", "third", "last"]

/-- TITLES: honorifics that indicate a character name follows. -/
def TITLES : List String :=
  ["mr", "mrs", "ms", "miss", "dr", "doctor", "professor", "prof",
   "sir", "lady", "lord", "king", "queen", "prince", "princess", "captain",
   "general", "colonel", "major", "sergeant", "officer", "detective", "agent",
   "father", "mother", "brother", "sister", "uncle", "aunt", "grandpa", "grandma"]

/-- LOCATION_PREPOSITIONS. -/
def LOCATION_PREPOSITIONS : List String :=
  ["in", "at", "inside", "outside", "within", "near",
   "by", "behind", "before", "above", "below", "beneath", "beside", "between",
   "through", "across", "around", "toward", "towards", "into", "onto", "upon"]

/-- placeNouns of extractLocations. -/
def placeNouns : List String :=
  ["castle", "palace", "tower", "house", "hall", "chamber",
   "room", "forest", "mountain", "river", "lake", "sea", "ocean", "city",
   "town", "village", "kingdom", "realm", "land", "world", "tavern", "inn",
   "temple", "church", "cathedral", "dungeon", "cave", "prison", "throne"]

/-- significantObjects of extractObjects. -/
def significantObjects : List String :=
  ["sword", "crown", "ring", "staff", "wand", "book",
   "scroll", "key", "gem", "stone", "amulet", "pendant", "necklace", "bracelet",
   "shield", "armor", "cloak", "robe", "dagger", "bow", "arrow", "spear", "axe",
   "hammer", "chalice", "goblet", "mirror", "orb", "crystal", "map", "letter"]

-- Character classes occurring in the source patterns.

/-- Class of an upper-case letter in a case-sensitive pattern. -/
def clsUpper : Rx := .cls isUpperAZ

/-- Plus-repetition of a lower-case letter in a case-sensitive pattern. -/
def clsLowerPlus : Rx := rxPlus (.cls isLowerAZ)

/-- Under the i flag the class A to Z matches any ASCII letter. -/
def clsUpperCi : Rx := .cls isLetterAZ

/-- Under the i flag the class a to z matches any ASCII letter. -/
def clsLowerPlusCi : Rx := rxPlus (.cls isLetterAZ)

/-- One or more whitespace characters. -/
def sP : Rx := rxPlus (.cls isJsSpace)

/-- Zero or more whitespace characters. -/
def sS : Rx := .star (.cls isJsSpace)

/-- One or more word characters (backslash-w plus). -/
def wP : Rx := rxPlus (.cls isWordChar)

/-- One or more digits. -/
def dP : Rx := rxPlus (.cls isDigitC)

/-- A single or double capitalized word, the group in the proper-noun and
title patterns (case-sensitive form). -/
def capWord12 : Rx :=
  .seq clsUpper (.seq clsLowerPlus (.opt (.seq sP (.seq clsUpper clsLowerPlus))))

/-- The same group under the i flag (any-case letters). -/
def capWord12Ci : Rx :=
  .seq clsUpperCi (.seq clsLowerPlusCi (.opt (.seq sP (.seq clsUpperCi clsLowerPlusCi))))

/-- A capitalized phrase of one or more words, the group of the location and
object patterns (case-sensitive form). -/
def capPhrase : Rx :=
  .seq clsUpper (.seq clsLowerPlus (.star (.seq sP (.seq clsUpper clsLowerPlus))))

/-- The same phrase group under the i flag. -/
def capPhraseCi : Rx :=
  .seq clsUpperCi (.seq clsLowerPlusCi (.star (.seq sP (.seq clsUpperCi clsLowerPlusCi))))

/-- Speech-reporting verbs of the dialogue-attribution patterns. -/
def speechVerbs : Rx :=
  rxWords false ["said", "asked", "replied", "whispered", "shouted", "muttered", "exclaimed"]

/-- Pattern 1 of extractCharactersFromText: a proper noun at the start of
the text, after sentence punctuation plus whitespace, or after a quote. -/
def properNounRx : Rx :=
  .seq (.alt .bos (.alt (.seq (.cls (fun c => c == '.' || c == '!' || c == '?')) sP)
                        (.seq (.cls (fun c => c == quotC || c == apoC)) sS)))
    (.seq (.capture 1 capWord12) .wb)

/-- Pattern 2 of extractCharactersFromText for one title: word boundary,
the title (i flag), optional dot, whitespace, captured name, boundary. -/
def titleRx (title : String) : Rx :=
  .seq .wb (.seq (rxLitCi title.toList)
    (.seq (.opt (rxChr '.')) (.seq sP (.seq (.capture 1 capWord12Ci) .wb))))

/-- Pattern 3 of extractCharactersFromText: quoted text, then a speech verb,
then the captured name. -/
def dialogueAttrRx : Rx :=
  .seq (.cls (fun c => c == quotC || c == apoC))
    (.seq (.lazyStar (.cls isDotChar))
      (.seq (.cls (fun c => c == quotC || c == apoC))
        (.seq sS (.seq (.opt (rxChr ',')) (.seq sS
          (.seq speechVerbs (.seq sP (.capture 1 (.seq clsUpper clsLowerPlus)))))))))

/-- Pattern 4 of extractCharactersFromText: captured name, speech verb,
then an opening quote. -/
def preDialogueRx : Rx :=
  .seq (.capture 1 (.seq clsUpper clsLowerPlus))
    (.seq sP (.seq speechVerbs (.seq sS (.seq (.opt (rxChr ',')) (.seq sS
      (.cls (fun c => c == quotC || c == apoC)))))))

/-- Location pattern A for one preposition: boundary, preposition,
whitespace, optionally the article the, then a captured phrase, boundary.
This pattern carries no i flag in the source. -/
def prepLocRx (prep : String) : Rx :=
  .seq .wb (.seq (rxLit prep.toList)
    (.seq sP (.seq (.opt (.seq (rxLit ("the").toList) sP))
      (.seq (.capture 1 capPhrase) .wb))))

/-- Location pattern B for one place noun (i flag): boundary, the, captured
phrase, the place noun, boundary. -/
def placeNounRx (noun : String) : Rx :=
  .seq .wb (.seq (rxLitCi ("the").toList)
    (.seq sP (.seq (.capture 1 capPhraseCi)
      (.seq sP (.seq (rxLitCi noun.toList) .wb)))))

/-- Object pattern for one object noun (i flag): either the EpithetPhrase
noun (group 1) or the noun of Name (group 2). -/
def objectRx (obj : String) : Rx :=
  .alt
    (.seq (rxLitCi ("the").toList)
      (.seq sP (.seq (.capture 1 capPhraseCi) (.seq sP (rxLitCi obj.toList)))))
    (.seq (rxLitCi ("the").toList)
      (.seq sP (.seq (rxLitCi obj.toList)
        (.seq sP (.seq (rxLitCi ("of").toList) (.seq sP (.capture 2 (.seq clsUpperCi clsLowerPlusCi))))))))

/-- Relationship types (closed tagged variant). -/
inductive RelationshipType where
  | interacts
  | opposes
  | allied_with
  | related_to
deriving DecidableEq

/-- RELATIONSHIP_PATTERNS: the six explicit relationship verb patterns, all
with the gi flags, paired with the relationship type they imply. -/
def RELATIONSHIP_PATTERNS : List (Rx × RelationshipType) :=
  [ (.seq (.capture 1 wP) (.seq sP (.seq (rxWords true ["loved", "kissed", "embraced", "married"])
       (.seq sP (.capture 2 wP)))), .related_to),
    (.seq (.capture 1 wP) (.seq sP (.seq (rxWords true ["attacked", "fought", "killed", "struck", "hit"])
       (.seq sP (.capture 2 wP)))), .opposes),
    (.seq (.capture 1 wP) (.seq sP (.seq (rxWords true ["helped", "saved", "protected", "defended"])
       (.seq sP (.capture 2 wP)))), .allied_with),
    (.seq (.capture 1 wP) (.seq sP (.seq (rxLitCi ("and").toList)
       (.seq sP (.seq (.capture 2 wP) (.seq sP (.seq (rxWords true ["worked", "traveled", "walked", "ran"])
         (.seq sP (rxLitCi ("together").toList)))))))), .allied_with),
    (.seq (.capture 1 wP) (.seq sP (.seq (rxWords true ["hated", "despised", "feared"])
       (.seq sP (.capture 2 wP)))), .opposes),
    (.seq (.capture 1 wP) (.seq sP (.seq (rxWords true ["trusted", "believed", "followed"])
       (.seq sP (.capture 2 wP)))), .allied_with) ]

/-- Alias pattern 1: Name, known or called or nicknamed, optionally as,
optionally quoted second Name. -/
def aliasRx1 : Rx :=
  .seq (.capture 1 (.seq clsUpper clsLowerPlus))
    (.seq (.opt (rxChr ',')) (.seq sP
      (.seq (rxWords false ["known", "called", "nicknamed"])
        (.seq sP (.seq (.opt (.seq (rxLit ("as").toList) sP))
          (.seq (.opt (.cls (fun c => c == quotC || c == apoC)))
            (.seq (.capture 2 (.seq clsUpper clsLowerPlus))
              (.opt (.cls (fun c => c == quotC || c == apoC))))))))))

/-- Alias pattern 2: Name, whose real or true name was or is Name. -/
def aliasRx2 : Rx :=
  .seq (.capture 1 (.seq clsUpper clsLowerPlus))
    (.seq (.opt (rxChr ',')) (.seq sP
      (.seq (rxLit ("whose").toList) (.seq sP
        (.seq (rxWords false ["real", "true"]) (.seq sP
          (.seq (rxLit ("name").toList) (.seq sP
            (.seq (rxWords false ["was", "is"]) (.seq sP
              (.capture 2 (.seq clsUpper clsLowerPlus))))))))))))

/-- Alias pattern 3 (gi flags): a sentence-initial descriptor of the form
the word word, followed by a light verb.  Note that this pattern has only
one capture group. -/
def aliasRx3 : Rx :=
  .seq (.alt .bos (.seq (.cls (fun c => c == '.' || c == '!' || c == '?')) sP))
    (.seq (.capture 1 (.seq (rxLitCi ("the").toList)
        (.seq sP (.seq clsLowerPlusCi (.seq sP clsLowerPlusCi)))))
      (.seq sP (rxWords true ["was", "had", "did", "could", "would", "said", "asked"])))

/-- The three alias patterns in source order. -/
def aliasPatterns : List Rx := [aliasRx1, aliasRx2, aliasRx3]

/-- The pronoun scan pattern of resolvePronounsInText (gi flags). -/
def pronounRx : Rx :=
  .seq .wb (.seq (.capture 1 (rxWords true
    ["he", "him", "his", "himself", "she", "her", "hers", "herself",
     "they", "them", "their", "theirs", "themselves"])) .wb)

-- ─────────────────────────────────────────────────────────────────────────
-- Data model (types/intelligence.ts as used by the embedded code).
-- ─────────────────────────────────────────────────────────────────────────

/-- One observed occurrence of an entity: offset plus chapter. -/
structure Mention where
  offset : Nat
  chapterId : Str
deriving DecidableEq

/-- Entity kinds. -/
inductive EntityType where
  | character
  | location
  | object
deriving DecidableEq

/-- An entity node.  Opaque random ids are modelled as natural numbers drawn
from an id stream.  The attributes record is carried but never written by
this core. -/
structure EntityNode where
  id : Nat
  name : Str
  type : EntityType
  aliases : List Str
  firstMention : Nat
  mentionCount : Nat
  mentions : List Mention
  attributes : List (Str × Str)
deriving DecidableEq

/-- An undirected relationship edge between two nodes. -/
structure EntityEdge where
  id : Nat
  source : Nat
  target : Nat
  type : RelationshipType
  coOccurrences : Nat
  sentiment : Int
  chapters : List Str
  evidence : List Str
deriving DecidableEq

/-- The entity graph.  processedAt is Date.now in the source, a reading of
the ambient clock outside this model; it is fixed at zero here and no claim
inspects it. -/
structure EntityGraph where
  nodes : List EntityNode
  edges : List EntityEdge
  processedAt : Nat
deriving DecidableEq

/-- A raw candidate mention produced by the scanners. -/
structure RawEntity where
  name : Str
  type : EntityType
  offset : Nat
  context : Str
deriving DecidableEq

/-- A resolved pronoun. -/
structure CoReference where
  pronoun : Str
  offset : Nat
  resolvedTo : Nat
  confidence : Int
deriving DecidableEq

/-- Externally supplied paragraph classification.  Only offset and length
are read by the embedded code; the classification fields (type, speaker,
sentiment, tension, sentence statistics) are never consulted and are left
out of the model. -/
structure ClassifiedParagraph where
  offset : Nat
  length : Nat
deriving DecidableEq

/-- Externally supplied dialogue line.  Only speaker, offset and quote are
read by the embedded code. -/
structure DialogueLine where
  speaker : Str
  offset : Nat
  quote : Str
deriving DecidableEq

-- ─────────────────────────────────────────────────────────────────────────
-- Utility functions of entityExtractor.ts.
-- ─────────────────────────────────────────────────────────────────────────

/-- Characters stripped by normalizeEntityName. -/
def normPunct (c : Char) : Bool :=
  c == '.' || c == ',' || c == '!' || c == '?' || c == ';' || c == ':' ||
  c == apoC || c == quotC

/-- normalizeEntityName: trim, then delete every occurrence of the listed
punctuation characters. -/
def normalizeEntityName (name : Str) : Str :=
  (jsTrim name).filter (fun c => !normPunct c)

/-- All-digits test, the anchored digit pattern of isValidEntityName. -/
def allDigits (s : Str) : Bool :=
  match s with
  | [] => false
  | _ => s.all isDigitC

/-- isValidEntityName. -/
def isValidEntityName (name : Str) : Bool :=
  let normalized := normalizeEntityName (lowerS name)
  if FALSE_POSITIVES.contains normalized then false
  else if normalized.length < 2 then false
  else if normalized.length > 30 then false
  else if allDigits normalized then false
  else true

/-- charAt(0).toUpperCase() plus slice(1). -/
def upperFirst : Str → Str
  | [] => []
  | c :: cs => jsUpperChar c :: cs

/-- The context snippet stored with a raw entity: slice from offset minus
thirty to offset plus fifty. -/
def rawCtx (text : Str) (offset : Nat) : Str := seg text (offset - 30) (offset + 50)

-- ─────────────────────────────────────────────────────────────────────────
-- Character, location and object scanners.
-- ─────────────────────────────────────────────────────────────────────────

/-- Shared body of the scanners: keep a match when its captured group,
normalized, passes validation; build the stored name from the capture. -/
def scanWith (text : Str) (r : Rx) (g : Nat) (ty : EntityType)
    (keep : Str → Bool) (mk : Str → Str) : List RawEntity :=
  (execAll r text).filterMap (fun m =>
    match m.grp? text g with
    | none => none
    | some raw =>
      if keep raw then some ⟨mk raw, ty, m.index, rawCtx text m.index⟩ else none)

/-- extractCharactersFromText: the four character patterns, results
concatenated in source order. -/
def extractCharactersFromText (text : Str) : List RawEntity :=
  (scanWith text properNounRx 1 .character
    (fun raw => isValidEntityName (normalizeEntityName raw))
    (fun raw => normalizeEntityName raw)) ++
  (TITLES.flatMap (fun title =>
    scanWith text (titleRx title) 1 .character
      (fun raw => isValidEntityName (normalizeEntityName raw))
      (fun raw => upperFirst title.toList ++ [' '] ++ normalizeEntityName raw))) ++
  (scanWith text dialogueAttrRx 1 .character
    (fun raw => isValidEntityName (normalizeEntityName raw))
    (fun raw => normalizeEntityName raw)) ++
  (scanWith text preDialogueRx 1 .character
    (fun raw => isValidEntityName (normalizeEntityName raw))
    (fun raw => normalizeEntityName raw))

/-- extractLocations: preposition patterns (with the extra length guard),
then place-noun patterns. -/
def extractLocations (text : Str) : List RawEntity :=
  (LOCATION_PREPOSITIONS.flatMap (fun prep =>
    scanWith text (prepLocRx prep) 1 .location
      (fun raw =>
        let name := normalizeEntityName raw
        isValidEntityName name && decide (2 < name.length))
      (fun raw => normalizeEntityName raw))) ++
  (placeNouns.flatMap (fun noun =>
    scanWith text (placeNounRx noun) 1 .location
      (fun raw => isValidEntityName (normalizeEntityName raw ++ [' '] ++ upperFirst noun.toList))
      (fun raw => normalizeEntityName raw ++ [' '] ++ upperFirst noun.toList)))

/-- extractObjects: for each object noun, matches of either alternative;
the raw name is group 1 or group 2, unnormalized, and the stored name is
The Name Noun. -/
def extractObjects (text : Str) : List RawEntity :=
  significantObjects.flatMap (fun obj =>
    (execAll (objectRx obj) text).filterMap (fun m =>
      let name? :=
        match m.grp? text 1 with
        | some s => some s
        | none => m.grp? text 2
      match name? with
      | none => none
      | some name =>
        if isValidEntityName name then
          some ⟨("The ").toList ++ name ++ [' '] ++ upperFirst obj.toList,
                .object, m.index, rawCtx text m.index⟩
        else none))

-- ─────────────────────────────────────────────────────────────────────────
-- Insertion-ordered maps (JS Map objects) as association lists.
-- ─────────────────────────────────────────────────────────────────────────

/-- Lookup in an insertion-ordered map. -/
def alGet {α β : Type} [DecidableEq α] (k : α) : List (α × β) → Option β
  | [] => none
  | (a, b) :: t => if a = k then some b else alGet k t

/-- Update the first entry with the given key, in place. -/
def alUpd {α β : Type} [DecidableEq α] (k : α) (f : β → β) : List (α × β) → List (α × β)
  | [] => []
  | (a, b) :: t => if a = k then (a, f b) :: t else (a, b) :: alUpd k f t

/-- Stable insertion into a descending-sorted list: an element moves ahead
of another only when its key is strictly larger, which reproduces a stable
JS sort with a descending comparator. -/
def insDescBy {α β : Type} [LinearOrder β] (f : α → β) (x : α) : List α → List α
  | [] => [x]
  | y :: ys => if f x < f y then y :: insDescBy f x ys else x :: y :: ys

/-- Stable descending sort by key. -/
def sortDescBy {α β : Type} [LinearOrder β] (f : α → β) : List α → List α
  | [] => []
  | x :: xs => insDescBy f x (sortDescBy f xs)

/-- Spread of a Set built from a concatenation: deduplicate keeping first
occurrences. -/
def dedupGo {α : Type} [DecidableEq α] (seen : List α) : List α → List α
  | [] => []
  | x :: xs => if seen.contains x then dedupGo seen xs else x :: dedupGo (seen ++ [x]) xs

/-- Deduplicate a list keeping first occurrences (JS new Set spread). -/
def setDedup {α : Type} [DecidableEq α] (l : List α) : List α := dedupGo [] l

-- ─────────────────────────────────────────────────────────────────────────
-- consolidateEntities.
-- ─────────────────────────────────────────────────────────────────────────

/-- The consolidation loop over raw entities: first occurrence of a
lower-cased name creates a node with a fresh id, later occurrences bump the
count and append a mention. -/
def consGo (gen : Nat → Nat) (chapterId : Str) :
    List RawEntity → List (Str × EntityNode) → Nat → List (Str × EntityNode) × Nat
  | [], acc, c => (acc, c)
  | raw :: rest, acc, c =>
    let key := lowerS raw.name
    match alGet key acc with
    | some _ =>
      consGo gen chapterId rest
        (alUpd key (fun e =>
          { e with mentionCount := e.mentionCount + 1,
                   mentions := e.mentions ++ [⟨raw.offset, chapterId⟩] }) acc) c
    | none =>
      consGo gen chapterId rest
        (acc ++ [(key, ⟨gen c, raw.name, raw.type, [], raw.offset, 1,
                        [⟨raw.offset, chapterId⟩], []⟩)]) (c + 1)

/-- consolidateEntities: run the loop from a given id counter, then sort
the map values descending by mention count (stable). -/
def consolidateEntities (gen : Nat → Nat) (rawEntities : List RawEntity)
    (chapterId : Str) (c0 : Nat) : List EntityNode × Nat :=
  let mc := consGo gen chapterId rawEntities [] c0
  (sortDescBy (fun e => e.mentionCount) (mc.1.map Prod.snd), mc.2)

-- ─────────────────────────────────────────────────────────────────────────
-- detectAliases.
-- ─────────────────────────────────────────────────────────────────────────

/-- Register a matched alias pair on every node whose canonical name equals
either captured name (the raw captured strings are stored). -/
def aliasApply (r1 r2 : Str) (nodes : List EntityNode) : List EntityNode :=
  let name1 := lowerS (normalizeEntityName r1)
  let name2 := lowerS (normalizeEntityName r2)
  nodes.map (fun e =>
    if lowerS e.name = name1 then
      if e.aliases.contains r2 then e else { e with aliases := e.aliases ++ [r2] }
    else if lowerS e.name = name2 then
      if e.aliases.contains r1 then e else { e with aliases := e.aliases ++ [r1] }
    else e)

/-- Process the matches of one alias pattern.  The source reads group 2 of
every match unconditionally; a match without a second group (alias pattern
3 has a single group) makes normalizeEntityName dereference undefined and
throw, modelled by none. -/
def aliasMatches (text : Str) : List MatchRes → List EntityNode → Option (List EntityNode)
  | [], nodes => some nodes
  | m :: ms, nodes =>
    match m.grp? text 1, m.grp? text 2 with
    | some r1, some r2 => aliasMatches text ms (aliasApply r1 r2 nodes)
    | _, _ => none

/-- The pattern loop of detectAliases. -/
def detectAliasesGo (text : Str) : List Rx → List EntityNode → Option (List EntityNode)
  | [], nodes => some nodes
  | r :: rs, nodes =>
    match aliasMatches text (execAll r text) nodes with
    | none => none
    | some nodes2 => detectAliasesGo text rs nodes2

/-- detectAliases (mutates its node list in the source; returns the updated
list here, or none for the exception). -/
def detectAliases (text : Str) (entities : List EntityNode) : Option (List EntityNode) :=
  detectAliasesGo text aliasPatterns entities

-- ─────────────────────────────────────────────────────────────────────────
-- Gender inference and pronoun resolution.
-- ─────────────────────────────────────────────────────────────────────────

inductive Gender where
  | male
  | female
  | neutral
  | unknown
deriving DecidableEq

def MALE_PRONOUNS : List Str := strList ["he", "him", "his", "himself"]

def FEMALE_PRONOUNS : List Str := strList ["she", "her", "hers", "herself"]

def NEUTRAL_PRONOUNS : List Str := strList ["they", "them", "their", "theirs", "themselves"]

def femaleEndings : List Str := strList ["a", "ia", "ina", "ella", "anna", "ette", "elle"]

def maleEndings : List Str := strList ["ius", "us", "son", "ton"]

/-- The context loop of inferGender over the first five mentions, with its
early returns. -/
def genderFromContext (text : Str) (nameLen : Nat) : List Mention → Option Gender
  | [] => none
  | m :: ms =>
    let context := lowerS (seg text (m.offset - 100) (m.offset + nameLen + 100))
    let maleCount := (MALE_PRONOUNS.filter (fun p => strHas context p)).length
    let femaleCount := (FEMALE_PRONOUNS.filter (fun p => strHas context p)).length
    if femaleCount + 1 < maleCount then some .male
    else if maleCount + 1 < femaleCount then some .female
    else genderFromContext text nameLen ms

/-- inferGender: name-ending heuristics first, then pronoun counts around
the first five mentions, else unknown. -/
def inferGender (entity : EntityNode) (text : Str) : Gender :=
  let nameLower := lowerS entity.name
  if femaleEndings.any (fun e => strEndsWith nameLower e) then .female
  else if maleEndings.any (fun e => strEndsWith nameLower e) then .male
  else
    match genderFromContext text entity.name.length (entity.mentions.take 5) with
    | some g => g
    | none => .unknown

/-- The candidate set used by resolvePronoun: character nodes, narrowed to
gender-compatible ones unless that filter empties the set. -/
def genderCands (pronoun : Str) (recentEntities : List EntityNode) (text : Str) :
    List EntityNode :=
  let pronounLower := lowerS pronoun
  let candidates := recentEntities.filter (fun e => e.type == EntityType.character)
  if MALE_PRONOUNS.contains pronounLower then
    let g := candidates.filter (fun e =>
      let gd := inferGender e text
      gd == Gender.male || gd == Gender.unknown)
    if g.isEmpty then candidates else g
  else if FEMALE_PRONOUNS.contains pronounLower then
    let g := candidates.filter (fun e =>
      let gd := inferGender e text
      gd == Gender.female || gd == Gender.unknown)
    if g.isEmpty then candidates else g
  else candidates

/-- Inner loop of the closest-preceding-mention search: fold one candidate
entity over its mentions, keeping the strictly smaller distance. -/
def scanMentions (e : EntityNode) (offset : Nat) :
    List Mention → EntityNode × Option Nat → EntityNode × Option Nat
  | [], acc => acc
  | m :: ms, acc =>
    if m.offset < offset then
      let d := offset - m.offset
      match acc.2 with
      | none => scanMentions e offset ms (e, some d)
      | some bd =>
        if d < bd then scanMentions e offset ms (e, some d)
        else scanMentions e offset ms acc
    else scanMentions e offset ms acc

/-- Outer loop of the search over all candidates. -/
def scanCands (offset : Nat) :
    List EntityNode → EntityNode × Option Nat → EntityNode × Option Nat
  | [], acc => acc
  | e :: es, acc => scanCands offset es (scanMentions e offset e.mentions acc)

/-- Confidence from the best distance; none is the JS Infinity.  The
source values 0.9, 0.7 and 0.5 are represented exactly in hundredths (90,
70, 50), as are every sentiment and severity value of this core; all the
code does with them is compare, which the scaling preserves. -/
def confOf : Option Nat → Int
  | none => 50
  | some d => if d < 100 then 90 else if d < 300 then 70 else 50

/-- resolvePronoun. -/
def resolvePronoun (pronoun : Str) (offset : Nat) (recentEntities : List EntityNode)
    (text : Str) : Option CoReference :=
  let candidates := genderCands pronoun recentEntities text
  match candidates with
  | [] => none
  | c0 :: _ =>
    let best := scanCands offset candidates (c0, none)
    some ⟨pronoun, offset, best.1.id, confOf best.2⟩

/-- Update the first node carrying the given id (Array.prototype.find plus
in-place mutation). -/
def updFirstById (i : Nat) (f : EntityNode → EntityNode) : List EntityNode → List EntityNode
  | [] => []
  | e :: es => if e.id == i then f e :: es else e :: updFirstById i f es

/-- The match loop of resolvePronounsInText: accepted resolutions append a
mention to the resolved node and bump its count. -/
def pronGo (text : Str) (chapterId : Str) :
    List MatchRes → List CoReference → List EntityNode → List CoReference × List EntityNode
  | [], crs, nodes => (crs, nodes)
  | m :: ms, crs, nodes =>
    let pr := (m.grp? text 1).getD []
    let characters := nodes.filter (fun e => e.type == EntityType.character)
    match resolvePronoun pr m.index characters text with
    | none => pronGo text chapterId ms crs nodes
    | some r =>
      if (50 : Int) ≤ r.confidence then
        pronGo text chapterId ms (crs ++ [r])
          (updFirstById r.resolvedTo (fun e =>
            { e with mentions := e.mentions ++ [⟨m.index, chapterId⟩],
                     mentionCount := e.mentionCount + 1 }) nodes)
      else pronGo text chapterId ms crs nodes

/-- resolvePronounsInText: nothing to do without character nodes, else scan
pronoun matches; returns the co-references and the updated node list. -/
def resolvePronounsInText (text : Str) (entities : List EntityNode) (chapterId : Str) :
    List CoReference × List EntityNode :=
  let characters := entities.filter (fun e => e.type == EntityType.character)
  if characters.isEmpty then ([], entities)
  else pronGo text chapterId (execAll pronounRx text) [] entities

-- ─────────────────────────────────────────────────────────────────────────
-- detectRelationships.
-- ─────────────────────────────────────────────────────────────────────────

/-- The edge-map key: the two node ids in canonical (sorted) order. -/
def edgeKey (a b : Nat) : Nat × Nat := (min a b, max a b)

/-- Edge accumulator: the insertion-ordered edge map and the id counter. -/
structure EdgeAcc where
  list : List ((Nat × Nat) × EntityEdge)
  ctr : Nat

/-- All ordered pairs (earlier element first) of a list, in the order of
the two nested loops of the source. -/
def ordPairs {α : Type} : List α → List (α × α)
  | [] => []
  | x :: xs => xs.map (fun y => (x, y)) ++ ordPairs xs

/-- One co-occurring pair: bump an existing edge (adding the chapter if
absent) or insert a fresh interacts edge with the paragraph snippet. -/
def coOccStep (gen : Nat → Nat) (chapterId : Str) (snippet : Str)
    (st : EdgeAcc) (p : EntityNode × EntityNode) : EdgeAcc :=
  let key := edgeKey p.1.id p.2.id
  match alGet key st.list with
  | some _ =>
    { st with list := alUpd key (fun e =>
        let e1 := { e with coOccurrences := e.coOccurrences + 1 }
        if e1.chapters.contains chapterId then e1
        else { e1 with chapters := e1.chapters ++ [chapterId] }) st.list }
  | none =>
    { list := st.list ++ [(key, ⟨gen st.ctr, p.1.id, p.2.id, .interacts, 1, 0,
                                 [chapterId], [snippet]⟩)],
      ctr := st.ctr + 1 }

/-- Loop over the co-occurring pairs of one paragraph. -/
def coOccPairs (gen : Nat → Nat) (chapterId : Str) (snippet : Str) :
    List (EntityNode × EntityNode) → EdgeAcc → EdgeAcc
  | [], st => st
  | p :: ps, st => coOccPairs gen chapterId snippet ps (coOccStep gen chapterId snippet st p)

/-- Method 1: loop over classified paragraphs; entities whose lower-cased
name occurs in the lower-cased paragraph text co-occur. -/
def coOccParas (gen : Nat → Nat) (chapterId : Str) (text : Str) (entities : List EntityNode) :
    List ClassifiedParagraph → EdgeAcc → EdgeAcc
  | [], st => st
  | para :: ps, st =>
    let paraText := lowerS (seg text para.offset (para.offset + para.length))
    let present := entities.filter (fun e => strHas paraText (lowerS e.name))
    coOccParas gen chapterId text entities ps
      (coOccPairs gen chapterId (paraText.take 100) (ordPairs present) st)

/-- One explicit-pattern hit on a pair of known entities: upgrade a generic
edge and append evidence, or insert a fresh typed edge. -/
def relStep (gen : Nat → Nat) (chapterId : Str) (ty : RelationshipType) (matched : Str)
    (e1 e2 : EntityNode) (st : EdgeAcc) : EdgeAcc :=
  let key := edgeKey e1.id e2.id
  match alGet key st.list with
  | some _ =>
    { st with list := alUpd key (fun e =>
        let eU := if e.type == RelationshipType.interacts then { e with type := ty } else e
        { eU with evidence := eU.evidence ++ [matched] }) st.list }
  | none =>
    { list := st.list ++ [(key, ⟨gen st.ctr, e1.id, e2.id, ty, 1,
        (if ty == RelationshipType.opposes then (-50 : Int) else 50), [chapterId], [matched]⟩)],
      ctr := st.ctr + 1 }

/-- Loop over the matches of one relationship pattern. -/
def relMatches (gen : Nat → Nat) (chapterId : Str) (text : Str) (entities : List EntityNode)
    (entityNames : List Str) (ty : RelationshipType) : List MatchRes → EdgeAcc → EdgeAcc
  | [], st => st
  | m :: ms, st =>
    let name1 := lowerS (normalizeEntityName ((m.grp? text 1).getD []))
    let name2 := lowerS (normalizeEntityName ((m.grp? text 2).getD []))
    let st2 :=
      if entityNames.contains name1 && entityNames.contains name2 then
        match entities.find? (fun e => lowerS e.name == name1),
              entities.find? (fun e => lowerS e.name == name2) with
        | some e1, some e2 => relStep gen chapterId ty (m.whole text) e1 e2 st
        | _, _ => st
      else st
    relMatches gen chapterId text entities entityNames ty ms st2

/-- Method 2: loop over the six relationship patterns. -/
def relPatterns (gen : Nat → Nat) (chapterId : Str) (text : Str) (entities : List EntityNode)
    (entityNames : List Str) : List (Rx × RelationshipType) → EdgeAcc → EdgeAcc
  | [], st => st
  | (r, ty) :: ps, st =>
    relPatterns gen chapterId text entities entityNames ps
      (relMatches gen chapterId text entities entityNames ty (execAll r text) st)

/-- detectRelationships: co-occurrence pass, then explicit patterns; the
edge list is the map in insertion order. -/
def detectRelationships (gen : Nat → Nat) (text : Str) (entities : List EntityNode)
    (paragraphs : List ClassifiedParagraph) (chapterId : Str) (c0 : Nat) :
    List EntityEdge × Nat :=
  let entityNames := entities.map (fun e => lowerS e.name)
  let st1 := coOccParas gen chapterId text entities paragraphs ⟨[], c0⟩
  let st2 := relPatterns gen chapterId text entities entityNames RELATIONSHIP_PATTERNS st1
  (st2.list.map Prod.snd, st2.ctr)

-- ─────────────────────────────────────────────────────────────────────────
-- extractEntities.
-- ─────────────────────────────────────────────────────────────────────────

/-- The raw-candidate assembly of extractEntities: scanned characters,
then dialogue speakers (non-empty speaker only) as high-confidence
characters, then locations, then objects. -/
def allRawEntities (text : Str) (dialogues : List DialogueLine) : List RawEntity :=
  (extractCharactersFromText text ++
    dialogues.filterMap (fun d =>
      if d.speaker.isEmpty then none
      else some ⟨d.speaker, .character, d.offset, d.quote⟩)) ++
  extractLocations text ++ extractObjects text

/-- extractEntities: assemble the raw candidates, consolidate, detect
aliases (the only step that can throw), resolve pronouns (mutating
mentions), then infer relationships. -/
def extractEntities (gen : Nat → Nat) (text : Str) (paragraphs : List ClassifiedParagraph)
    (dialogues : List DialogueLine) (chapterId : Str) : Option EntityGraph :=
  let cons := consolidateEntities gen (allRawEntities text dialogues) chapterId 0
  match detectAliases text cons.1 with
  | none => none
  | some nodes1 =>
    let nodes2 := (resolvePronounsInText text nodes1 chapterId).2
    some ⟨nodes2, (detectRelationships gen text nodes2 paragraphs chapterId cons.2).1, 0⟩

-- ─────────────────────────────────────────────────────────────────────────
-- mergeEntityGraphs (value semantics).
-- ─────────────────────────────────────────────────────────────────────────

/-- Merge one incoming node into an existing map entry. -/
def mergeNode (node : EntityNode) (e : EntityNode) : EntityNode :=
  let e1 := { e with mentionCount := e.mentionCount + node.mentionCount,
                     mentions := e.mentions ++ node.mentions,
                     aliases := setDedup (e.aliases ++ node.aliases) }
  if node.firstMention < e1.firstMention then { e1 with firstMention := node.firstMention }
  else e1

/-- Node-merging loop of one graph. -/
def mergeNodesGo : List EntityNode → List (Str × EntityNode) → List (Str × EntityNode)
  | [], acc => acc
  | node :: rest, acc =>
    let key := lowerS node.name
    match alGet key acc with
    | some _ => mergeNodesGo rest (alUpd key (mergeNode node) acc)
    | none => mergeNodesGo rest (acc ++ [(key, node)])

/-- Merge one incoming edge into an existing map entry. -/
def mergeEdge (edge : EntityEdge) (e : EntityEdge) : EntityEdge :=
  let e1 := { e with coOccurrences := e.coOccurrences + edge.coOccurrences,
                     chapters := setDedup (e.chapters ++ edge.chapters),
                     evidence := (e.evidence ++ edge.evidence).take 10 }
  if e1.type == RelationshipType.interacts && !(edge.type == RelationshipType.interacts)
  then { e1 with type := edge.type } else e1

/-- Edge-merging loop of one graph, keyed by the sorted id pair. -/
def mergeEdgesGo : List EntityEdge → List ((Nat × Nat) × EntityEdge) → List ((Nat × Nat) × EntityEdge)
  | [], acc => acc
  | edge :: rest, acc =>
    let key := edgeKey edge.source edge.target
    match alGet key acc with
    | some _ => mergeEdgesGo rest (alUpd key (mergeEdge edge) acc)
    | none => mergeEdgesGo rest (acc ++ [(key, edge)])

/-- Loop over the input graphs. -/
def mergeGraphsGo : List EntityGraph →
    List (Str × EntityNode) × List ((Nat × Nat) × EntityEdge) →
    List (Str × EntityNode) × List ((Nat × Nat) × EntityEdge)
  | [], acc => acc
  | g :: gs, (nm, em) => mergeGraphsGo gs (mergeNodesGo g.nodes nm, mergeEdgesGo g.edges em)

/-- mergeEntityGraphs, at the level of returned values: nodes merged by
lower-cased name, edges by sorted id pair, both re-sorted descending.  This
value-level reading is exact whenever the mentions arrays of the input
graphs are pairwise unaliased (the reference-level model below captures the
sharing that the spread copies leave behind). -/
def mergeEntityGraphs (graphs : List EntityGraph) : EntityGraph :=
  let ne := mergeGraphsGo graphs ([], [])
  ⟨sortDescBy (fun n => n.mentionCount) (ne.1.map Prod.snd),
   sortDescBy (fun e => e.coOccurrences) (ne.2.map Prod.snd), 0⟩

-- ─────────────────────────────────────────────────────────────────────────
-- mergeEntityGraphs (reference semantics of the mentions arrays).
--
-- The source copies nodes with a field spread, so the copy shares its
-- mentions array with the input node, and the push during a merge writes
-- through that shared reference.  To express what happens to the inputs,
-- nodes here carry an index into a store of mention arrays instead of the
-- array itself, and the merge threads the store.
-- ─────────────────────────────────────────────────────────────────────────

/-- A node whose mentions field is a reference into the store.  Fields the
node-merging code never touches (type, attributes) are omitted. -/
structure HNode where
  id : Nat
  name : Str
  mentionCount : Nat
  mentionsRef : Nat
  aliases : List Str
  firstMention : Nat
deriving DecidableEq

/-- A graph over reference-carrying nodes. -/
structure HGraph where
  nodes : List HNode
  edges : List EntityEdge
deriving DecidableEq

/-- The store of mention arrays. -/
abbrev MStore := List (List Mention)

/-- Read an array out of the store. -/
def storeGet (s : MStore) (r : Nat) : List Mention := (s.get? r).getD []

/-- Write an array back into the store. -/
def storeSet (s : MStore) (r : Nat) (v : List Mention) : MStore := s.set r v

/-- Merge one incoming node under reference semantics: the existing entry
(a spread copy of the first node seen under this name, sharing that node
mentions reference) gets its count summed, and the push appends through the
shared reference in the store. -/
def mergeNodeRef (node : HNode) (st : List (Str × HNode) × MStore) :
    List (Str × HNode) × MStore :=
  let key := lowerS node.name
  match alGet key st.1 with
  | some existing =>
    let store2 := storeSet st.2 existing.mentionsRef
      (storeGet st.2 existing.mentionsRef ++ storeGet st.2 node.mentionsRef)
    let upd := fun (e : HNode) =>
      let e1 := { e with mentionCount := e.mentionCount + node.mentionCount,
                         aliases := setDedup (e.aliases ++ node.aliases) }
      if node.firstMention < e1.firstMention then { e1 with firstMention := node.firstMention }
      else e1
    (alUpd key upd st.1, store2)
  | none => (st.1 ++ [(key, node)], st.2)

/-- Node loop of one graph under reference semantics. -/
def mergeNodesRefGo : List HNode → List (Str × HNode) × MStore → List (Str × HNode) × MStore
  | [], st => st
  | n :: ns, st => mergeNodesRefGo ns (mergeNodeRef n st)

/-- Graph loop of mergeEntityGraphs under reference semantics (edges are
merged by value exactly as in the value model; they reassign rather than
push, so they never write through shared state). -/
def mergeGraphsRefGo : List HGraph →
    (List (Str × HNode) × List ((Nat × Nat) × EntityEdge) × MStore) →
    (List (Str × HNode) × List ((Nat × Nat) × EntityEdge) × MStore)
  | [], st => st
  | g :: gs, (nm, em, store) =>
    let (nm2, store2) := mergeNodesRefGo g.nodes (nm, store)
    mergeGraphsRefGo gs (nm2, mergeEdgesGo g.edges em, store2)

/-- mergeEntityGraphs under reference semantics: returns the merged graph
(nodes still pointing into the store) and the final store, which also
describes what the mentions arrays of the INPUT graphs now contain. -/
def mergeEntityGraphsRef (graphs : List HGraph) (store0 : MStore) : HGraph × MStore :=
  let st := mergeGraphsRefGo graphs ([], [], store0)
  (⟨sortDescBy (fun n => n.mentionCount) (st.1.map Prod.snd),
    sortDescBy (fun e => e.coOccurrences) (st.2.1.map Prod.snd)⟩, st.2.2)

-- ─────────────────────────────────────────────────────────────────────────
-- Contradiction detector (the contradiction-detector module).
-- ─────────────────────────────────────────────────────────────────────────

/-- Contradiction categories. -/
inductive ContradictionType where
  | attribute
  | timeline
  | location
  | relationship
  | existence
deriving DecidableEq

/-- One claim inside a contradiction. -/
structure CClaim where
  text : Str
  offset : Nat
  value : Str
deriving DecidableEq

/-- A detected contradiction.  entityId is a string in the source and the
empty string marks a missing entity; here ids are numbers and none marks
the empty string. -/
structure Contradiction where
  id : Nat
  type : ContradictionType
  entityId : Option Nat
  entityName : Str
  claim1 : CClaim
  claim2 : CClaim
  severity : Int
  suggestion : Str
deriving DecidableEq

/-- Eye-color pattern (gi): possessive form with groups 1 and 2, or the
form eyes were X with group 3. -/
def eyeRx : Rx :=
  .alt
    (.seq (.capture 1 wP) (.seq (rxChr apoC) (.seq (.opt (.cls (fun c => jsLowerChar c == 's')))
      (.seq sP (.seq (.capture 2 wP) (.seq sP (rxLitCi ("eyes").toList)))))))
    (.seq (rxLitCi ("eyes").toList) (.seq sP (.seq (rxWords true ["were", "are"])
      (.seq sP (.capture 3 wP)))))

/-- Hair-color pattern (gi). -/
def hairRx : Rx :=
  .alt
    (.seq (.capture 1 wP) (.seq (rxChr apoC) (.seq (.opt (.cls (fun c => jsLowerChar c == 's')))
      (.seq sP (.seq (.capture 2 wP) (.seq sP (rxLitCi ("hair").toList)))))))
    (.seq (rxLitCi ("hair").toList) (.seq sP (.seq (rxWords true ["was", "is"])
      (.seq sP (.capture 3 wP)))))

/-- Age pattern (gi): X was N years old (groups 1, 2) or N-year-old X
(groups 3, 4). -/
def ageRx : Rx :=
  .alt
    (.seq (.capture 1 wP) (.seq sP (.seq (rxWords true ["was", "is"])
      (.seq sP (.seq (.capture 2 dP) (.seq sP (.seq (rxLitCi ("year").toList)
        (.seq (.opt (.cls (fun c => jsLowerChar c == 's'))) (.seq sP (rxLitCi ("old").toList))))))))))
    (.seq (.capture 3 dP) (.seq (rxChr '-') (.seq (rxLitCi ("year").toList)
      (.seq (rxChr '-') (.seq (rxLitCi ("old").toList) (.seq sP (.capture 4 wP)))))))

/-- Height pattern (gi): X was tall or short or average height (group 2). -/
def heightRx : Rx :=
  .seq (.capture 1 wP) (.seq sP (.seq (rxWords true ["was", "is"])
    (.seq sP (.capture 2 (.alt (rxLitCi ("tall").toList)
      (.alt (rxLitCi ("short").toList)
        (.seq (rxLitCi ("average").toList) (.seq sP (rxLitCi ("height").toList)))))))))

/-- Build pattern (gi): possessive descriptor followed by build, frame or
body (group 2). -/
def buildRx : Rx :=
  .seq (.capture 1 wP) (.seq (rxChr apoC) (.seq (.opt (.cls (fun c => jsLowerChar c == 's')))
    (.seq sP (.seq (.capture 2 (rxWords true
        ["slender", "muscular", "heavyset", "thin", "stocky", "athletic"]))
      (.seq sP (rxWords true ["build", "frame", "body"]))))))

/-- One attribute-pattern rule: its category, its pattern, and which group
carries the value (the per-pattern extractor arrow). -/
structure AttributePattern where
  category : Str
  rx : Rx
  valueOf : Str → MatchRes → Option Str

/-- The five attribute rules in source order.  The value extractors are
the arrows of the source: group 2 or group 3 for colors and age, group 2
for height and build. -/
def ATTRIBUTE_PATTERNS : List AttributePattern :=
  [ ⟨("eye_color").toList, eyeRx, fun t m =>
      match m.grp? t 2 with | some v => some v | none => m.grp? t 3⟩,
    ⟨("hair_color").toList, hairRx, fun t m =>
      match m.grp? t 2 with | some v => some v | none => m.grp? t 3⟩,
    ⟨("age").toList, ageRx, fun t m =>
      match m.grp? t 2 with | some v => some v | none => m.grp? t 3⟩,
    ⟨("height").toList, heightRx, fun t m => m.grp? t 2⟩,
    ⟨("build").toList, buildRx, fun t m => m.grp? t 2⟩ ]

/-- One extracted attribute occurrence. -/
structure ExtractedAttribute where
  entityName : Str
  category : Str
  value : Str
  offset : Nat
  context : Str
deriving DecidableEq

/-- extractAttributes: run each rule; the entity name is group 1 or group
4, the value comes from the rule arrow; keep a hit only when both are
present. -/
def extractAttributes (text : Str) : List ExtractedAttribute :=
  ATTRIBUTE_PATTERNS.flatMap (fun ap =>
    (execAll ap.rx text).filterMap (fun m =>
      let entityName? :=
        match m.grp? text 1 with
        | some s => some s
        | none => m.grp? text 4
      match entityName?, ap.valueOf text m with
      | some entityName, some value =>
        some ⟨jsTrim entityName, ap.category, lowerS value, m.index,
              seg text (m.index - 20) (m.stop + 20)⟩
      | _, _ => none))

-- ─────────────────────────────────────────────────────────────────────────
-- Attribute compatibility and detectAttributeContradictions.
-- ─────────────────────────────────────────────────────────────────────────

/-- JS parseInt on the strings seen here: leading whitespace, optional
sign, then a leading run of digits; none when no digit is found. -/
def parseIntJs (s : Str) : Option Int :=
  let s1 := s.dropWhile isJsSpace
  let (neg, s2) :=
    match s1 with
    | c :: t => if c == '-' then (true, t) else if c == '+' then (false, t) else (false, s1)
    | [] => (false, s1)
  let digits := s2.takeWhile isDigitC
  match digits with
  | [] => none
  | _ =>
    let v : Int := digits.foldl (fun acc c => acc * 10 + (c.toNat - 48 : Int)) 0
    some (if neg then -v else v)

/-- The fixed color-variation table. -/
def colorVariations : List (Str × List Str) :=
  [ (("blue").toList, strList ["light blue", "dark blue", "sky blue", "azure"]),
    (("green").toList, strList ["light green", "dark green", "emerald", "jade"]),
    (("brown").toList, strList ["dark brown", "light brown", "chestnut", "chocolate"]),
    (("black").toList, strList ["jet black", "raven"]),
    (("red").toList, strList ["auburn", "copper", "crimson"]),
    (("blonde").toList, strList ["golden", "fair", "light"]) ]

/-- areValuesCompatible: equal values, ages within two years, or two
members of one synonym bucket. -/
def areValuesCompatible (category val1 val2 : Str) : Bool :=
  if val1 = val2 then true
  else
    let ageOk :=
      if category = ("age").toList then
        match parseIntJs val1, parseIntJs val2 with
        | some a1, some a2 => some (decide ((a1 - a2).natAbs ≤ 2))
        | _, _ => none
      else none
    match ageOk with
    | some b => b
    | none =>
      colorVariations.any (fun bucket =>
        (val1 = bucket.1 || bucket.2.contains val1) &&
        (val2 = bucket.1 || bucket.2.contains val2))

/-- Nested grouping of extracted attributes: by lower-cased entity name,
then by category, both insertion-ordered. -/
def groupAttrs : List ExtractedAttribute →
    List (Str × List (Str × List ExtractedAttribute)) →
    List (Str × List (Str × List ExtractedAttribute))
  | [], acc => acc
  | a :: rest, acc =>
    let key := lowerS a.entityName
    let acc2 :=
      match alGet key acc with
      | some cats =>
        let cats2 :=
          match alGet a.category cats with
          | some _ => alUpd a.category (fun l0 => l0 ++ [a]) cats
          | none => cats ++ [(a.category, [a])]
        alUpd key (fun _ => cats2) acc
      | none => acc ++ [(key, [(a.category, [a])])]
    groupAttrs rest acc2

/-- The underscore-to-space replacement of the suggestion text (JS replace
with a string pattern substitutes the first occurrence only). -/
def replaceFirstUnderscore : Str → Str
  | [] => []
  | c :: cs => if c == '_' then ' ' :: cs else c :: replaceFirstUnderscore cs

/-- The suggestion sentence of an attribute contradiction. -/
def attrSuggestion (name category v1 v2 : Str) : Str :=
  name ++ [apoC, 's', ' '] ++ replaceFirstUnderscore category ++
  (" is described as both ").toList ++ [quotC] ++ v1 ++ [quotC] ++
  (" and ").toList ++ [quotC] ++ v2 ++ [quotC] ++
  (". Consider making these consistent.").toList

/-- Emit one contradiction for an incompatible attribute pair. -/
def mkAttrContradiction (cid : Nat) (entityId : Option Nat) (category : Str)
    (a1 a2 : ExtractedAttribute) : Contradiction :=
  ⟨cid, .attribute, entityId, a1.entityName,
   ⟨a1.context, a1.offset, a1.value⟩, ⟨a2.context, a2.offset, a2.value⟩,
   80, attrSuggestion a1.entityName category a1.value a2.value⟩

/-- The pair loop over one category bucket (indices i < j in source
order), threading the contradiction-id counter. -/
def attrPairs (entityId : Option Nat) (category : Str) :
    List (ExtractedAttribute × ExtractedAttribute) →
    List Contradiction × Nat → List Contradiction × Nat
  | [], acc => acc
  | (a1, a2) :: rest, (out, c) =>
    if areValuesCompatible category a1.value a2.value then
      attrPairs entityId category rest (out, c)
    else
      attrPairs entityId category rest
        (out ++ [mkAttrContradiction c entityId category a1 a2], c + 1)

/-- Loop over the categories of one entity. -/
def attrCats (entityId : Option Nat) :
    List (Str × List ExtractedAttribute) → List Contradiction × Nat →
    List Contradiction × Nat
  | [], acc => acc
  | (category, attrs) :: rest, acc =>
    let acc2 :=
      if attrs.length < 2 then acc
      else attrPairs entityId category (ordPairs attrs) acc
    attrCats entityId rest acc2

/-- Loop over the grouped entities; the node lookup is by lower-cased
name, and a missing node leaves entityId empty (none). -/
def attrEntities (nodes : List EntityNode) :
    List (Str × List (Str × List ExtractedAttribute)) →
    List Contradiction × Nat → List Contradiction × Nat
  | [], acc => acc
  | (entityName, cats) :: rest, acc =>
    let entity? := nodes.find? (fun e => lowerS e.name == entityName)
    attrEntities nodes rest (attrCats (entity?.map (fun e => e.id)) cats acc)

/-- detectAttributeContradictions. -/
def detectAttributeContradictions (text : Str) (entities : EntityGraph) :
    List Contradiction :=
  (attrEntities entities.nodes (groupAttrs (extractAttributes text) []) ([], 0)).1

-- ─────────────────────────────────────────────────────────────────────────
-- Timeline contradictions.
-- ─────────────────────────────────────────────────────────────────────────

/-- Death pattern 1 (gi): name followed by died, was killed, passed away
or perished. -/
def deathRx1 : Rx :=
  .seq (.capture 1 wP) (.seq sP (.alt (rxLitCi ("died").toList)
    (.alt (.seq (rxLitCi ("was").toList) (.seq sP (rxLitCi ("killed").toList)))
      (.alt (.seq (rxLitCi ("passed").toList) (.seq sP (rxLitCi ("away").toList)))
        (rxLitCi ("perished").toList)))))

/-- Death pattern 2 (gi): killed, murdered or slew followed by the name. -/
def deathRx2 : Rx :=
  .seq (rxWords true ["killed", "murdered", "slew"]) (.seq sP (.capture 1 wP))

/-- Death pattern 3 (gi): possessive followed by death, demise or
passing. -/
def deathRx3 : Rx :=
  .seq (.capture 1 wP) (.seq (rxChr apoC) (.seq (.cls (fun c => jsLowerChar c == 's'))
    (.seq sP (rxWords true ["death", "demise", "passing"]))))

/-- DEATH_PATTERNS in source order. -/
def DEATH_PATTERNS : List Rx := [deathRx1, deathRx2, deathRx3]

/-- The scan of the death patterns in source order: every match yields the
lower-cased captured name, the match offset and the context snippet. -/
def deathScan (text : Str) : List (Str × Nat × Str) :=
  DEATH_PATTERNS.flatMap (fun r =>
    (execAll r text).filterMap (fun m =>
      let name? :=
        match m.grp? text 1 with
        | some s => some s
        | none => m.grp? text 2
      name?.map (fun n =>
        (lowerS n, m.index, seg text (m.index - 20) (m.stop + 20)))))

/-- The death-event map: first insertion wins for each name. -/
def trackDeathsGo : List (Str × Nat × Str) → List (Str × Nat × Str) → List (Str × Nat × Str)
  | [], acc => acc
  | (name, off, ctx) :: rest, acc =>
    match alGet name acc with
    | some _ => trackDeathsGo rest acc
    | none => trackDeathsGo rest (acc ++ [(name, off, ctx)])

/-- The deathEvents map of detectTimelineContradictions. -/
def trackDeaths (text : Str) : List (Str × Nat × Str) :=
  trackDeathsGo (deathScan text) []

/-- The action-verb context test applied after a death. -/
def actionRx : Rx :=
  rxWords true ["said", "asked", "walked", "ran", "looked", "smiled", "nodded", "shook"]

/-- The suggestion sentence of a timeline contradiction. -/
def timelineSuggestion (name : Str) : Str :=
  name ++ (" appears to take action after their death. Either the death scene or subsequent action needs revision.").toList

/-- Scan the post-death mentions of one entity, emitting at most one
contradiction (the source breaks after the first hit). -/
def postDeathScan (text : Str) (entity : EntityNode) (deathOff : Nat) (deathCtx : Str)
    (cid : Nat) : List Mention → Option Contradiction
  | [] => none
  | m :: ms =>
    let mentionContext := seg text m.offset (m.offset + 100)
    if rxTest actionRx mentionContext then
      some ⟨cid, .timeline, some entity.id, entity.name,
            ⟨deathCtx, deathOff, ("death").toList⟩,
            ⟨mentionContext.take 50, m.offset, ("action after death").toList⟩,
            95, timelineSuggestion entity.name⟩
    else postDeathScan text entity deathOff deathCtx cid ms

/-- Loop over the recorded deaths. -/
def timelineGo (text : Str) (nodes : List EntityNode) :
    List (Str × Nat × Str) → List Contradiction × Nat → List Contradiction × Nat
  | [], acc => acc
  | (name, off, ctx) :: rest, (out, c) =>
    match nodes.find? (fun e => lowerS e.name == name) with
    | none => timelineGo text nodes rest (out, c)
    | some entity =>
      let postDeath := entity.mentions.filter (fun m => off < m.offset)
      match postDeathScan text entity off ctx c postDeath with
      | none => timelineGo text nodes rest (out, c)
      | some contra => timelineGo text nodes rest (out ++ [contra], c + 1)

/-- An externally built timeline event (consumed, never constructed). -/
structure TimelineEvent where
  offset : Nat
  description : Str
deriving DecidableEq

/-- The externally built timeline. -/
structure Timeline where
  events : List TimelineEvent
deriving DecidableEq

/-- detectTimelineContradictions.  The timeline argument is accepted and
never read, exactly as in the source. -/
def detectTimelineContradictions (text : Str) (entities : EntityGraph)
    (_timeline : Timeline) : List Contradiction :=
  (timelineGo text entities.nodes (trackDeaths text) ([], 0)).1

/-- detectContradictions: attribute results then timeline results, sorted
descending by severity (stable). -/
def detectContradictions (text : Str) (entities : EntityGraph) (timeline : Timeline) :
    List Contradiction :=
  sortDescBy (fun c => c.severity)
    (detectAttributeContradictions text entities ++
     detectTimelineContradictions text entities timeline)

-- ─────────────────────────────────────────────────────────────────────────
-- Concrete inputs used by the claim theorems, counterexamples and
-- witnesses.
-- ─────────────────────────────────────────────────────────────────────────

/-- The identity id stream, standing for one particular draw of the random
id generator. -/
def idStream : Nat → Nat := fun k => k

/-- A chapter identifier. -/
def chap1 : Str := ("c1").toList

/-- A second chapter identifier. -/
def chap2 : Str := ("c2").toList

/-- The generic-descriptor text of claim C1. -/
def textC1 : Str := ("The old man was tired.").toList

/-- The scenario text of claim C3. -/
def textC3 : Str := ("Sarah and Marcus walked together through the garden.").toList

/-- A text whose dialogue-attribution pattern finds a name at offset 4
after the proper-noun pattern has already created the node from offset 20:
yet Marcus said (quote) hi. (quote) Marcus walked. -/
def textC4 : Str :=
  ("yet Marcus said ").toList ++ [quotC] ++ ("hi.").toList ++ [quotC] ++
  (" Marcus walked.").toList

/-- A text where the second death pattern matches at offset 0 but the first
death pattern (scanned first) matches at offset 23. -/
def textC5 : Str := ("murdered Marcus before Marcus died").toList

/-- A text with two co-occurring sentence-initial names. -/
def textTomAnn : Str := ("Tom slept. Ann slept.").toList

/-- The paragraph covering textTomAnn. -/
def paraTomAnn : ClassifiedParagraph := ⟨0, 21⟩

/-- A pronoun at offset 0, before any mention of the only candidate. -/
def textC7 : Str := ("He saw Marcus.").toList

/-- A character node for Marcus with one mention at offset 7. -/
def marcusNode : EntityNode := ⟨1, ("Marcus").toList, .character, [], 7, 1, [⟨7, chap1⟩], []⟩

/-- Height-attribute contradiction text with no matching graph node. -/
def textC10 : Str := ("Sarah was tall. Sarah was short.").toList

-- Inputs of the merge counterexamples.

/-- A graph holding one Sarah node with id 1. -/
def graphA : EntityGraph := ⟨[⟨1, ("Sarah").toList, .character, [], 0, 1, [⟨0, chap1⟩], []⟩], [], 0⟩

/-- A graph holding a second Sarah node (id 2), a Tom node (id 3) and an
edge between them. -/
def graphB : EntityGraph :=
  ⟨[⟨2, ("Sarah").toList, .character, [], 3, 1, [⟨3, chap2⟩], []⟩,
    ⟨3, ("Tom").toList, .character, [], 9, 1, [⟨9, chap2⟩], []⟩],
   [⟨4, 2, 3, .interacts, 1, 0, [chap2], []⟩], 0⟩

/-- Reference-model graph one: its Sarah node points at store slot 0. -/
def hgraphA : HGraph := ⟨[⟨1, ("Sarah").toList, 1, 0, [], 5⟩], []⟩

/-- Reference-model graph two: its Sarah node points at store slot 1. -/
def hgraphB : HGraph := ⟨[⟨2, ("Sarah").toList, 1, 1, [], 9⟩], []⟩

/-- The initial store: slot 0 holds the mentions of graph one, slot 1 those
of graph two. -/
def storeC6 : MStore := [[⟨5, chap1⟩], [⟨9, chap2⟩]]

-- ─────────────────────────────────────────────────────────────────────────
-- General lemmas about the association-list and sorting helpers.
-- ─────────────────────────────────────────────────────────────────────────

theorem alGet_append_one {α β : Type} [DecidableEq α] (k a : α) (v : β) :
    ∀ l : List (α × β), alGet k (l ++ [(a, v)]) =
      match alGet k l with
      | some w => some w
      | none => if a = k then some v else none := by
  intro l
  induction l with
  | nil => simp [alGet]
  | cons kv t ih =>
    by_cases h : kv.1 = k <;> simp [alGet, h, ih]

theorem alUpd_forall {α β : Type} [DecidableEq α] {P : β → Prop} (k : α) (f : β → β) :
    ∀ l : List (α × β), (∀ kv ∈ l, P kv.2) → (∀ b, P b → P (f b)) →
      ∀ kv ∈ alUpd k f l, P kv.2 := by
  intro l
  induction l with
  | nil => intro _ _ kv h; simp [alUpd] at h
  | cons hd t ih =>
    intro hl hf kv hm
    match hd with
    | (a, b) =>
      simp only [alUpd] at hm
      by_cases h : a = k
      · simp only [h, if_pos rfl] at hm
        rcases List.mem_cons.1 hm with h1 | h1
        · subst h1; exact hf b (hl (a, b) (List.mem_cons_self _ _))
        · exact hl kv (List.mem_cons_of_mem _ h1)
      · simp only [if_neg h] at hm
        rcases List.mem_cons.1 hm with h1 | h1
        · subst h1; exact hl (a, b) (List.mem_cons_self _ _)
        · exact ih (fun kv h => hl kv (List.mem_cons_of_mem _ h)) hf kv h1

theorem mem_insDescBy {α β : Type} [LinearOrder β] (f : α → β) (x a : α) :
    ∀ l : List α, a ∈ insDescBy f x l → a = x ∨ a ∈ l := by
  intro l
  induction l with
  | nil => intro h; simp [insDescBy] at h; exact Or.inl h
  | cons y ys ih =>
    intro h
    simp only [insDescBy] at h
    by_cases hc : f x < f y
    · simp only [if_pos hc] at h
      rcases List.mem_cons.1 h with h1 | h1
      · exact Or.inr (List.mem_cons.2 (Or.inl h1))
      · rcases ih h1 with h2 | h2
        · exact Or.inl h2
        · exact Or.inr (List.mem_cons.2 (Or.inr h2))
    · simp only [if_neg hc] at h
      rcases List.mem_cons.1 h with h1 | h1
      · exact Or.inl h1
      · exact Or.inr h1

theorem mem_sortDescBy {α β : Type} [LinearOrder β] (f : α → β) (a : α) :
    ∀ l : List α, a ∈ sortDescBy f l → a ∈ l := by
  intro l
  induction l with
  | nil => intro h; simp [sortDescBy] at h
  | cons x xs ih =>
    intro h
    rcases mem_insDescBy f x a (sortDescBy f xs) h with h1 | h1
    · exact h1 ▸ List.mem_cons_self _ _
    · exact List.mem_cons_of_mem _ (ih h1)

/-- Minimum of a list of naturals, none for the empty list. -/
def listMinO : List Nat → Option Nat
  | [] => none
  | x :: xs =>
    match listMinO xs with
    | none => some x
    | some m => some (min x m)

theorem listMinO_mem : ∀ l : List Nat, ∀ d, listMinO l = some d → d ∈ l := by
  intro l
  induction l with
  | nil => intro d h; simp [listMinO] at h
  | cons x xs ih =>
    intro d h
    simp only [listMinO] at h
    cases hx : listMinO xs with
    | none => rw [hx] at h; injection h with h; exact h ▸ List.mem_cons_self _ _
    | some m =>
      rw [hx] at h; injection h with h
      rcases Nat.le_total x m with hle | hle
      · rw [min_eq_left hle] at h; exact h ▸ List.mem_cons_self _ _
      · rw [min_eq_right hle] at h
        exact List.mem_cons_of_mem _ (ih d (by rw [hx, h]))

-- ─────────────────────────────────────────────────────────────────────────
-- C1: extraction is claimed never to throw; the third alias pattern makes
-- detectAliases read a capture group that does not exist.
-- ─────────────────────────────────────────────────────────────────────────

/-- C1: the claim states that extractEntities and detectAliases terminate
normally on every text, in particular on text matching the generic
referential descriptor pattern.  On the text (The old man was tired.) the
third alias pattern matches, the source reads the non-existent second
capture group and throws a TypeError inside normalizeEntityName; the model
returns none (the exception) both for detectAliases and for the whole
extractEntities call, refuting the claim and exhibiting the code defect. -/
theorem c1_extract_throws_on_descriptor_text :
    detectAliases textC1 [] = none ∧
    extractEntities idStream textC1 [] [] chap1 = none := by
  constructor
  · decide
  · decide

-- ─────────────────────────────────────────────────────────────────────────
-- C3: the Sarah-and-Marcus scenario.
-- ─────────────────────────────────────────────────────────────────────────

/-- C3 counterexample: on the scenario text the extractor finds exactly one
node, Sarah, and no edge at all, so the claimed Marcus node and the claimed
allied_with edge between Sarah and Marcus do not exist. -/
theorem c3_scenario1_cex :
    (extractEntities idStream textC3 [] [] chap1).map
      (fun g => (g.nodes.map EntityNode.name, g.edges.length)) =
      some ([("Sarah").toList], 0) := by
  decide

/-- C3 amended: the node list of the scenario extraction contains Sarah and
does not contain Marcus (the proper-noun rule only fires at sentence
boundaries and Marcus stands mid-sentence), and the edge list is empty, so
no allied_with edge is produced. -/
theorem c3_scenario1_amended :
    (extractEntities idStream textC3 [] [] chap1).map
      (fun g => (decide (("Sarah").toList ∈ g.nodes.map EntityNode.name),
                 decide (("Marcus").toList ∈ g.nodes.map EntityNode.name),
                 g.edges)) =
      some (true, false, []) := by
  decide

-- ─────────────────────────────────────────────────────────────────────────
-- C4: firstMention versus the minimum mention offset.
-- ─────────────────────────────────────────────────────────────────────────

/-- C4 counterexample: on textC4 the single node (Marcus) is created by the
proper-noun pattern at offset 20, and the pre-dialogue pattern then appends
a mention at offset 4; firstMention stays 20 while the minimum offset over
the recorded mentions is 4. -/
theorem c4_firstMention_not_min_cex :
    (extractEntities idStream textC4 [] [] chap1).map
      (fun g => g.nodes.map (fun n => (n.firstMention, n.mentions.map Mention.offset))) =
      some [(20, [20, 4])] ∧
    listMinO [20, 4] = some 4 ∧ (20 : Nat) ≠ 4 := by
  refine ⟨by decide, by decide, by decide⟩

-- ─────────────────────────────────────────────────────────────────────────
-- C5: the recorded death offset.
-- ─────────────────────────────────────────────────────────────────────────

/-- The death offset detectTimelineContradictions records for a name. -/
def trackDeathOffset (text name : Str) : Option Nat :=
  (alGet name (trackDeaths text)).map Prod.fst

/-- Spec-side definition, following the words of claim C5: the minimum
offset over all matches of all death patterns for the name. -/
def specMinDeathOffset (text name : Str) : Option Nat :=
  listMinO ((deathScan text).filterMap (fun e => if e.1 = name then some e.2.1 else none))

theorem trackDeathsGo_alGet (k : Str) :
    ∀ (l acc : List (Str × Nat × Str)), alGet k (trackDeathsGo l acc) =
      match alGet k acc with
      | some v => some v
      | none => ((l.find? (fun e => decide (e.1 = k))).map Prod.snd) := by
  intro l
  induction l with
  | nil =>
    intro acc
    cases h : alGet k acc <;> simp [trackDeathsGo, h]
  | cons e rest ih =>
    intro acc
    match e with
    | (name, v) =>
      simp only [trackDeathsGo]
      cases h : alGet name acc with
      | some w =>
        rw [ih]
        cases hk : alGet k acc with
        | some u => simp
        | none =>
          have hnk : ¬ name = k := by
            intro he; rw [he, hk] at h; exact Option.noConfusion h
          simp [List.find?, hnk]
      | none =>
        rw [ih, alGet_append_one]
        cases hk : alGet k acc with
        | some u => simp
        | none =>
          by_cases he : name = k
          · simp [List.find?, he]
          · simp [List.find?, he]

/-- C5 amended: the recorded death offset of a name is the offset of the
first match in scan order (the three death patterns tried in their fixed
order, each scanned left to right), not the minimum over all matches. -/
theorem c5_death_offset_first_in_scan :
    ∀ text name, trackDeathOffset text name =
      ((deathScan text).find? (fun e => decide (e.1 = name))).map (fun e => e.2.1) := by
  intro text name
  unfold trackDeathOffset trackDeaths
  rw [trackDeathsGo_alGet]
  simp only [alGet]
  cases h : (deathScan text).find? (fun e => decide (e.1 = name)) <;> simp [h]

/-- C5 counterexample: on textC5 the first death pattern (name followed by
died) matches marcus at offset 23 and is recorded, although the second
death pattern (murdered followed by name) matches marcus at offset 0; the
recorded offset differs from the claimed minimum over all matches. -/
theorem c5_death_offset_not_min_cex :
    trackDeathOffset textC5 (("marcus").toList) = some 23 ∧
    specMinDeathOffset textC5 (("marcus").toList) = some 0 ∧
    ¬ trackDeathOffset textC5 (("marcus").toList) =
        specMinDeathOffset textC5 (("marcus").toList) := by
  refine ⟨by decide, by decide, by decide⟩

-- ─────────────────────────────────────────────────────────────────────────
-- C6: mergeEntityGraphs writes through the shared mentions arrays.
-- ─────────────────────────────────────────────────────────────────────────

/-- C6: the claim states that mergeEntityGraphs leaves its input graphs
unchanged.  Under the reference semantics of the source (the spread copy
shares the mentions array with the input node, and push writes through that
reference), merging two graphs that both contain a Sarah node appends the
second node mentions to the array owned by the FIRST INPUT graph: store
slot 0, reachable only through the first input graph, changes from one
mention to two.  The claim is right about the intent (the spread shows the
copy was meant to isolate the inputs) and the code wrong. -/
theorem c6_merge_mutates_input_mentions :
    storeGet storeC6 (hgraphA.nodes.headD ⟨0, [], 0, 0, [], 0⟩).mentionsRef = [⟨5, chap1⟩] ∧
    storeGet (mergeEntityGraphsRef [hgraphA, hgraphB] storeC6).2
        (hgraphA.nodes.headD ⟨0, [], 0, 0, [], 0⟩).mentionsRef = [⟨5, chap1⟩, ⟨9, chap2⟩] ∧
    ¬ storeGet (mergeEntityGraphsRef [hgraphA, hgraphB] storeC6).2
        (hgraphA.nodes.headD ⟨0, [], 0, 0, [], 0⟩).mentionsRef =
      storeGet storeC6 (hgraphA.nodes.headD ⟨0, [], 0, 0, [], 0⟩).mentionsRef := by
  refine ⟨by decide, by decide, by decide⟩

-- ─────────────────────────────────────────────────────────────────────────
-- Shape of a successful extraction.
-- ─────────────────────────────────────────────────────────────────────────

theorem extractEntities_some_elim {gen : Nat → Nat} {text : Str}
    {paragraphs : List ClassifiedParagraph} {dialogues : List DialogueLine}
    {chapterId : Str} {g : EntityGraph}
    (h : extractEntities gen text paragraphs dialogues chapterId = some g) :
    ∃ nodes1,
      detectAliases text
          (consolidateEntities gen (allRawEntities text dialogues) chapterId 0).1 = some nodes1 ∧
      g.nodes = (resolvePronounsInText text nodes1 chapterId).2 ∧
      g.edges = (detectRelationships gen text
          (resolvePronounsInText text nodes1 chapterId).2 paragraphs chapterId
          (consolidateEntities gen (allRawEntities text dialogues) chapterId 0).2).1 := by
  simp only [extractEntities] at h
  cases hv : detectAliases text
      (consolidateEntities gen (allRawEntities text dialogues) chapterId 0).1 with
  | none => rw [hv] at h; exact absurd h (by simp)
  | some nodes1 =>
    rw [hv] at h
    simp only [Option.some.injEq] at h
    exact ⟨nodes1, rfl, by rw [← h], by rw [← h]⟩

-- ─────────────────────────────────────────────────────────────────────────
-- C2: edge endpoints.
-- ─────────────────────────────────────────────────────────────────────────

theorem ordPairs_mem {α : Type} (p : α × α) :
    ∀ l : List α, p ∈ ordPairs l → p.1 ∈ l ∧ p.2 ∈ l := by
  intro l
  induction l with
  | nil => intro h; simp [ordPairs] at h
  | cons x xs ih =>
    intro h
    simp only [ordPairs, List.mem_append] at h
    rcases h with h | h
    · rcases List.mem_map.1 h with ⟨y, hy, he⟩
      constructor
      · rw [← he]; exact List.mem_cons_self _ _
      · rw [← he]; exact List.mem_cons_of_mem _ hy
    · rcases ih h with ⟨h1, h2⟩
      exact ⟨List.mem_cons_of_mem _ h1, List.mem_cons_of_mem _ h2⟩

/-- The endpoint invariant over the edge accumulator. -/
abbrev EdgeEndsIn (ids : List Nat) (st : EdgeAcc) : Prop :=
  ∀ kv ∈ st.list, kv.2.source ∈ ids ∧ kv.2.target ∈ ids

theorem coOccStep_ends {ids : List Nat} {gen : Nat → Nat} {cid sn : Str}
    {st : EdgeAcc} {p : EntityNode × EntityNode}
    (hst : EdgeEndsIn ids st) (h1 : p.1.id ∈ ids) (h2 : p.2.id ∈ ids) :
    EdgeEndsIn ids (coOccStep gen cid sn st p) := by
  cases hAl : alGet (edgeKey p.1.id p.2.id) st.list with
  | some e =>
    simp only [coOccStep, hAl]
    intro kv hm
    refine @alUpd_forall _ _ _ (fun e => e.source ∈ ids ∧ e.target ∈ ids) _ _ _ hst ?_ kv hm
    intro b hb
    by_cases hc : b.chapters.contains cid <;> simp only [hc] <;>
      exact ⟨hb.1, hb.2⟩
  | none =>
    simp only [coOccStep, hAl]
    intro kv hm
    rcases List.mem_append.1 hm with hm | hm
    · exact hst kv hm
    · rcases List.mem_singleton.1 hm with rfl
      exact ⟨h1, h2⟩

theorem coOccPairs_ends {ids : List Nat} {gen : Nat → Nat} {cid sn : Str} :
    ∀ (ps : List (EntityNode × EntityNode)) (st : EdgeAcc),
      (∀ p ∈ ps, p.1.id ∈ ids ∧ p.2.id ∈ ids) → EdgeEndsIn ids st →
      EdgeEndsIn ids (coOccPairs gen cid sn ps st) := by
  intro ps
  induction ps with
  | nil => intro st _ hst; exact hst
  | cons p rest ih =>
    intro st hp hst
    have hp0 := hp p (List.mem_cons_self _ _)
    exact ih _ (fun q hq => hp q (List.mem_cons_of_mem _ hq))
      (coOccStep_ends hst hp0.1 hp0.2)

theorem coOccParas_ends {gen : Nat → Nat} {cid text : Str} {entities : List EntityNode} :
    ∀ (ps : List ClassifiedParagraph) (st : EdgeAcc),
      EdgeEndsIn (entities.map EntityNode.id) st →
      EdgeEndsIn (entities.map EntityNode.id) (coOccParas gen cid text entities ps st) := by
  intro ps
  induction ps with
  | nil => intro st hst; exact hst
  | cons para rest ih =>
    intro st hst
    refine ih _ (coOccPairs_ends _ _ ?_ hst)
    intro p hp
    have hmem := ordPairs_mem p _ hp
    constructor
    · exact List.mem_map_of_mem _ (List.mem_of_mem_filter hmem.1)
    · exact List.mem_map_of_mem _ (List.mem_of_mem_filter hmem.2)

theorem relStep_ends {ids : List Nat} {gen : Nat → Nat} {cid m : Str}
    {ty : RelationshipType} {st : EdgeAcc} {e1 e2 : EntityNode}
    (hst : EdgeEndsIn ids st) (h1 : e1.id ∈ ids) (h2 : e2.id ∈ ids) :
    EdgeEndsIn ids (relStep gen cid ty m e1 e2 st) := by
  cases hAl : alGet (edgeKey e1.id e2.id) st.list with
  | some e =>
    simp only [relStep, hAl]
    intro kv hm
    refine @alUpd_forall _ _ _ (fun e => e.source ∈ ids ∧ e.target ∈ ids) _ _ _ hst ?_ kv hm
    intro b hb
    by_cases hc : b.type == RelationshipType.interacts <;> simp only [hc] <;>
      exact ⟨hb.1, hb.2⟩
  | none =>
    simp only [relStep, hAl]
    intro kv hm
    rcases List.mem_append.1 hm with hm | hm
    · exact hst kv hm
    · rcases List.mem_singleton.1 hm with rfl
      exact ⟨h1, h2⟩

theorem relMatches_ends {gen : Nat → Nat} {cid text : Str} {entities : List EntityNode}
    {names : List Str} {ty : RelationshipType} :
    ∀ (ms : List MatchRes) (st : EdgeAcc),
      EdgeEndsIn (entities.map EntityNode.id) st →
      EdgeEndsIn (entities.map EntityNode.id) (relMatches gen cid text entities names ty ms st) := by
  intro ms
  induction ms with
  | nil => intro st hst; exact hst
  | cons m rest ih =>
    intro st hst
    refine ih _ ?_
    by_cases hc : names.contains (lowerS (normalizeEntityName ((m.grp? text 1).getD []))) &&
        names.contains (lowerS (normalizeEntityName ((m.grp? text 2).getD [])))
    · simp only [hc, if_pos]
      cases hf1 : entities.find? (fun e =>
          lowerS e.name == lowerS (normalizeEntityName ((m.grp? text 1).getD []))) with
      | none => exact hst
      | some e1 =>
        cases hf2 : entities.find? (fun e =>
            lowerS e.name == lowerS (normalizeEntityName ((m.grp? text 2).getD []))) with
        | none => exact hst
        | some e2 =>
          exact relStep_ends hst
            (List.mem_map_of_mem _ (List.mem_of_find?_eq_some hf1))
            (List.mem_map_of_mem _ (List.mem_of_find?_eq_some hf2))
    · simp only [hc, if_neg, Bool.false_eq_true, not_false_eq_true]
      exact hst

theorem relPatterns_ends {gen : Nat → Nat} {cid text : Str} {entities : List EntityNode}
    {names : List Str} :
    ∀ (ps : List (Rx × RelationshipType)) (st : EdgeAcc),
      EdgeEndsIn (entities.map EntityNode.id) st →
      EdgeEndsIn (entities.map EntityNode.id) (relPatterns gen cid text entities names ps st) := by
  intro ps
  induction ps with
  | nil => intro st hst; exact hst
  | cons p rest ih =>
    intro st hst
    match p with
    | (r, ty) => exact ih _ (relMatches_ends _ _ hst)

theorem detectRelationships_endpoints (gen : Nat → Nat) (text : Str)
    (entities : List EntityNode) (paragraphs : List ClassifiedParagraph)
    (cid : Str) (c0 : Nat) :
    ∀ e ∈ (detectRelationships gen text entities paragraphs cid c0).1,
      e.source ∈ entities.map EntityNode.id ∧ e.target ∈ entities.map EntityNode.id := by
  intro e he
  unfold detectRelationships at he
  rcases List.mem_map.1 he with ⟨kv, hkv, hve⟩
  have hbase : EdgeEndsIn (entities.map EntityNode.id) ⟨[], c0⟩ := by
    intro kv h; simp at h
  have h2 := @relPatterns_ends gen cid text entities (entities.map (fun e => lowerS e.name)) _ _
    (coOccParas_ends _ _ hbase) kv hkv
  rw [← hve]
  exact h2

/-- C2 counterexample: merging graphA (Sarah with id 1) and graphB (Sarah
with id 2, Tom with id 3, and a Sarah-Tom edge) keeps the edge with source
id 2 while the merged node list only carries ids 1 and 3, so the edge
references a node id that does not exist in the returned graph. -/
theorem c2_edge_endpoint_missing_cex :
    (mergeEntityGraphs [graphA, graphB]).nodes.map EntityNode.id = [1, 3] ∧
    (mergeEntityGraphs [graphA, graphB]).edges.map (fun e => (e.source, e.target)) = [(2, 3)] ∧
    ¬ (2 : Nat) ∈ (mergeEntityGraphs [graphA, graphB]).nodes.map EntityNode.id := by
  refine ⟨by decide, by decide, by decide⟩

/-- C2 amended: for every graph successfully returned by extractEntities,
both endpoints of every edge exist among the node ids of that graph (they
need not be distinct: a relationship pattern capturing the same name twice
yields a self-loop; and mergeEntityGraphs does not enjoy the existence
property, as the counterexample shows). -/
theorem c2_extract_edge_endpoints_exist :
    ∀ (gen : Nat → Nat) (text : Str) (paragraphs : List ClassifiedParagraph)
      (dialogues : List DialogueLine) (chapterId : Str) (g : EntityGraph),
      extractEntities gen text paragraphs dialogues chapterId = some g →
      ∀ e ∈ g.edges,
        e.source ∈ g.nodes.map EntityNode.id ∧ e.target ∈ g.nodes.map EntityNode.id := by
  intro gen text paragraphs dialogues chapterId g h e he
  rcases extractEntities_some_elim h with ⟨nodes1, _, hn, hed⟩
  rw [hed] at he
  rw [hn]
  exact detectRelationships_endpoints _ _ _ _ _ _ e he

/-- The Tom node of the textTomAnn extraction. -/
def nTom : EntityNode := ⟨0, ("Tom").toList, .character, [], 0, 1, [⟨0, chap1⟩], []⟩

/-- The Ann node of the textTomAnn extraction. -/
def nAnn : EntityNode := ⟨1, ("Ann").toList, .character, [], 9, 1, [⟨9, chap1⟩], []⟩

/-- The single co-occurrence edge of the textTomAnn extraction. -/
def eTomAnn : EntityEdge :=
  ⟨2, 0, 1, .interacts, 1, 0, [chap1], [("tom slept. ann slept.").toList]⟩

/-- The graph the extractor returns on textTomAnn with its covering
paragraph. -/
def gTomAnn : EntityGraph := ⟨[nTom, nAnn], [eTomAnn], 0⟩

set_option maxHeartbeats 1000000 in
theorem extract_tomAnn_eval :
    extractEntities idStream textTomAnn [paraTomAnn] [] chap1 = some gTomAnn := by
  have h1 : allRawEntities textTomAnn [] =
      [⟨("Tom").toList, .character, 0, textTomAnn⟩,
       ⟨("Ann").toList, .character, 9, textTomAnn⟩] := by decide
  have h2 : consolidateEntities idStream
      [⟨("Tom").toList, .character, 0, textTomAnn⟩,
       ⟨("Ann").toList, .character, 9, textTomAnn⟩] chap1 0 = ([nTom, nAnn], 2) := by decide
  have h3 : detectAliases textTomAnn [nTom, nAnn] = some [nTom, nAnn] := by decide
  have h4 : resolvePronounsInText textTomAnn [nTom, nAnn] chap1 = ([], [nTom, nAnn]) := by
    decide
  have h5 : detectRelationships idStream textTomAnn [nTom, nAnn] [paraTomAnn] chap1 2 =
      ([eTomAnn], 3) := by decide
  simp only [extractEntities, h1, h2, h3, h4, h5]
  rfl

/-- C2 witness: a concrete successful extraction with one co-occurrence
edge whose endpoints are checked against the node ids. -/
theorem c2_extract_edge_endpoints_exist_witness :
    eTomAnn.source ∈ gTomAnn.nodes.map EntityNode.id ∧
    eTomAnn.target ∈ gTomAnn.nodes.map EntityNode.id :=
  c2_extract_edge_endpoints_exist idStream textTomAnn [paraTomAnn] [] chap1 gTomAnn
    extract_tomAnn_eval eTomAnn (by decide)

-- ─────────────────────────────────────────────────────────────────────────
-- Node invariants through the pipeline stages.
-- ─────────────────────────────────────────────────────────────────────────

theorem consGo_forall {P : EntityNode → Prop} (gen : Nat → Nat) (cid : Str)
    (hupd : ∀ (e : EntityNode) (off : Nat), P e →
      P { e with mentionCount := e.mentionCount + 1,
                 mentions := e.mentions ++ [⟨off, cid⟩] })
    (hnew : ∀ (i : Nat) (name : Str) (ty : EntityType) (off : Nat),
      P ⟨i, name, ty, [], off, 1, [⟨off, cid⟩], []⟩) :
    ∀ (raw : List RawEntity) (acc : List (Str × EntityNode)) (c : Nat),
      (∀ kv ∈ acc, P kv.2) → ∀ kv ∈ (consGo gen cid raw acc c).1, P kv.2 := by
  intro raw
  induction raw with
  | nil => intro acc c hacc kv hm; exact hacc kv hm
  | cons r rest ih =>
    intro acc c hacc kv hm
    cases hAl : alGet (lowerS r.name) acc with
    | some e =>
      simp only [consGo, hAl] at hm
      refine ih _ _ ?_ kv hm
      intro kv2 hm2
      exact alUpd_forall _ _ _ hacc (fun b hb => hupd b r.offset hb) kv2 hm2
    | none =>
      simp only [consGo, hAl] at hm
      refine ih _ _ ?_ kv hm
      intro kv2 hm2
      rcases List.mem_append.1 hm2 with hm2 | hm2
      · exact hacc kv2 hm2
      · rcases List.mem_singleton.1 hm2 with rfl
        exact hnew _ _ _ _

theorem consolidateEntities_forall {P : EntityNode → Prop} (gen : Nat → Nat) (cid : Str)
    (hupd : ∀ (e : EntityNode) (off : Nat), P e →
      P { e with mentionCount := e.mentionCount + 1,
                 mentions := e.mentions ++ [⟨off, cid⟩] })
    (hnew : ∀ (i : Nat) (name : Str) (ty : EntityType) (off : Nat),
      P ⟨i, name, ty, [], off, 1, [⟨off, cid⟩], []⟩) :
    ∀ (raw : List RawEntity) (c0 : Nat), ∀ n ∈ (consolidateEntities gen raw cid c0).1, P n := by
  intro raw c0 n hn
  simp only [consolidateEntities] at hn
  have h1 := mem_sortDescBy _ _ _ hn
  rcases List.mem_map.1 h1 with ⟨kv, hkv, he⟩
  exact he ▸ consGo_forall gen cid hupd hnew raw [] c0 (by intro kv h; simp at h) kv hkv

theorem aliasApply_forall {P : EntityNode → Prop} (r1 r2 : Str)
    (hP : ∀ (e : EntityNode) (al : List Str), P e → P { e with aliases := al }) :
    ∀ nodes, (∀ e ∈ nodes, P e) → ∀ e ∈ aliasApply r1 r2 nodes, P e := by
  intro nodes hn e he
  simp only [aliasApply] at he
  rcases List.mem_map.1 he with ⟨x, hx, hxe⟩
  have hPx := hn x hx
  rw [← hxe]
  split_ifs <;> first | exact hPx | exact hP x _ hPx

theorem aliasMatches_forall {P : EntityNode → Prop} (text : Str)
    (hP : ∀ (e : EntityNode) (al : List Str), P e → P { e with aliases := al }) :
    ∀ (ms : List MatchRes) (nodes nodes2 : List EntityNode),
      aliasMatches text ms nodes = some nodes2 →
      (∀ e ∈ nodes, P e) → ∀ e ∈ nodes2, P e := by
  intro ms
  induction ms with
  | nil =>
    intro nodes nodes2 h hn
    simp only [aliasMatches, Option.some.injEq] at h
    exact h ▸ hn
  | cons m rest ih =>
    intro nodes nodes2 h hn
    simp only [aliasMatches] at h
    cases h1 : m.grp? text 1 with
    | none => rw [h1] at h; exact absurd h (by simp)
    | some r1 =>
      cases h2 : m.grp? text 2 with
      | none => rw [h1, h2] at h; exact absurd h (by simp)
      | some r2 =>
        rw [h1, h2] at h
        exact ih _ _ h (aliasApply_forall r1 r2 hP _ hn)

theorem detectAliasesGo_forall {P : EntityNode → Prop} (text : Str)
    (hP : ∀ (e : EntityNode) (al : List Str), P e → P { e with aliases := al }) :
    ∀ (rs : List Rx) (nodes nodes2 : List EntityNode),
      detectAliasesGo text rs nodes = some nodes2 →
      (∀ e ∈ nodes, P e) → ∀ e ∈ nodes2, P e := by
  intro rs
  induction rs with
  | nil =>
    intro nodes nodes2 h hn
    simp only [detectAliasesGo, Option.some.injEq] at h
    exact h ▸ hn
  | cons r rest ih =>
    intro nodes nodes2 h hn
    simp only [detectAliasesGo] at h
    cases hm : aliasMatches text (execAll r text) nodes with
    | none => rw [hm] at h; exact absurd h (by simp)
    | some mid =>
      rw [hm] at h
      exact ih _ _ h (aliasMatches_forall text hP _ _ _ hm hn)

theorem updFirstById_forall {P : EntityNode → Prop} (i : Nat) (f : EntityNode → EntityNode)
    (hf : ∀ e, P e → P (f e)) :
    ∀ l, (∀ e ∈ l, P e) → ∀ e ∈ updFirstById i f l, P e := by
  intro l
  induction l with
  | nil => intro _ e he; simp [updFirstById] at he
  | cons x xs ih =>
    intro hl e he
    simp only [updFirstById] at he
    by_cases hx : x.id == i
    · simp only [hx, if_true] at he
      rcases List.mem_cons.1 he with h | h
      · exact h ▸ hf x (hl x (List.mem_cons_self _ _))
      · exact hl e (List.mem_cons_of_mem _ h)
    · simp only [hx, Bool.false_eq_true, if_false] at he
      rcases List.mem_cons.1 he with h | h
      · exact h ▸ hl x (List.mem_cons_self _ _)
      · exact ih (fun y hy => hl y (List.mem_cons_of_mem _ hy)) e h

theorem pronGo_forall {P : EntityNode → Prop} (text cid : Str)
    (hP : ∀ (e : EntityNode) (off : Nat), P e →
      P { e with mentions := e.mentions ++ [⟨off, cid⟩],
                 mentionCount := e.mentionCount + 1 }) :
    ∀ (ms : List MatchRes) (crs : List CoReference) (nodes : List EntityNode),
      (∀ e ∈ nodes, P e) → ∀ e ∈ (pronGo text cid ms crs nodes).2, P e := by
  intro ms
  induction ms with
  | nil => intro crs nodes hn e he; exact hn e he
  | cons m rest ih =>
    intro crs nodes hn e he
    simp only [pronGo] at he
    cases hr : resolvePronoun ((m.grp? text 1).getD [])
        m.index (nodes.filter (fun e => e.type == EntityType.character)) text with
    | none => rw [hr] at he; exact ih _ _ hn e he
    | some r =>
      rw [hr] at he
      by_cases hc : (50 : Int) ≤ r.confidence
      · simp only [hc, if_pos] at he
        refine ih _ _ ?_ e he
        exact updFirstById_forall _ _ (fun x hx => hP x m.index hx) _ hn
      · simp only [hc, if_neg, not_false_eq_true] at he
        exact ih _ _ hn e he

theorem resolvePronounsInText_forall {P : EntityNode → Prop} (text cid : Str)
    (hP : ∀ (e : EntityNode) (off : Nat), P e →
      P { e with mentions := e.mentions ++ [⟨off, cid⟩],
                 mentionCount := e.mentionCount + 1 }) :
    ∀ (nodes : List EntityNode), (∀ e ∈ nodes, P e) →
      ∀ e ∈ (resolvePronounsInText text nodes cid).2, P e := by
  intro nodes hn e he
  simp only [resolvePronounsInText] at he
  by_cases hc : (nodes.filter (fun e => e.type == EntityType.character)).isEmpty
  · simp only [hc, if_pos] at he; exact hn e he
  · simp only [hc, Bool.false_eq_true, if_false] at he
    exact pronGo_forall text cid hP _ _ _ hn e he

/-- The mentionCount bookkeeping invariant. -/
abbrev CountLen (n : EntityNode) : Prop := n.mentionCount = n.mentions.length

theorem mergeNode_countlen {node e : EntityNode}
    (h1 : CountLen node) (h2 : CountLen e) : CountLen (mergeNode node e) := by
  simp only [CountLen] at h1 h2
  simp only [mergeNode, CountLen]
  split <;> simp [h1, h2]

theorem mergeNodesGo_countlen :
    ∀ (nodes : List EntityNode) (acc : List (Str × EntityNode)),
      (∀ n ∈ nodes, CountLen n) → (∀ kv ∈ acc, CountLen kv.2) →
      ∀ kv ∈ mergeNodesGo nodes acc, CountLen kv.2 := by
  intro nodes
  induction nodes with
  | nil => intro acc _ hacc kv hm; exact hacc kv hm
  | cons node rest ih =>
    intro acc hn hacc kv hm
    have hnode := hn node (List.mem_cons_self _ _)
    have hrest := fun n h => hn n (List.mem_cons_of_mem _ h)
    cases hAl : alGet (lowerS node.name) acc with
    | some e =>
      simp only [mergeNodesGo, hAl] at hm
      refine ih _ hrest ?_ kv hm
      exact alUpd_forall _ _ _ hacc (fun b hb => mergeNode_countlen hnode hb)
    | none =>
      simp only [mergeNodesGo, hAl] at hm
      refine ih _ hrest ?_ kv hm
      intro kv2 hm2
      rcases List.mem_append.1 hm2 with hm2 | hm2
      · exact hacc kv2 hm2
      · rcases List.mem_singleton.1 hm2 with rfl
        exact hnode

theorem mergeGraphsGo_countlen :
    ∀ (graphs : List EntityGraph)
      (acc : List (Str × EntityNode) × List ((Nat × Nat) × EntityEdge)),
      (∀ g ∈ graphs, ∀ n ∈ g.nodes, CountLen n) → (∀ kv ∈ acc.1, CountLen kv.2) →
      ∀ kv ∈ (mergeGraphsGo graphs acc).1, CountLen kv.2 := by
  intro graphs
  induction graphs with
  | nil => intro acc _ hacc kv hm; exact hacc kv hm
  | cons g rest ih =>
    intro acc hg hacc kv hm
    have : mergeGraphsGo (g :: rest) acc =
        mergeGraphsGo rest (mergeNodesGo g.nodes acc.1, mergeEdgesGo g.edges acc.2) := rfl
    rw [this] at hm
    refine ih _ (fun g2 h2 => hg g2 (List.mem_cons_of_mem _ h2)) ?_ kv hm
    exact mergeNodesGo_countlen g.nodes acc.1 (hg g (List.mem_cons_self _ _)) hacc

-- ─────────────────────────────────────────────────────────────────────────
-- C8: mentionCount equals the length of mentions.
-- ─────────────────────────────────────────────────────────────────────────

/-- C8: in every graph successfully returned by extractEntities and in
every merge of graphs that satisfy the invariant, mentionCount equals the
length of the mentions list: consolidation, the in-place appends of
pronoun resolution, and graph merging all preserve it. -/
theorem c8_mentionCount_eq_len :
    (∀ (gen : Nat → Nat) (text : Str) (paragraphs : List ClassifiedParagraph)
       (dialogues : List DialogueLine) (chapterId : Str) (g : EntityGraph),
       extractEntities gen text paragraphs dialogues chapterId = some g →
       ∀ n ∈ g.nodes, n.mentionCount = n.mentions.length) ∧
    (∀ graphs : List EntityGraph,
       (∀ g ∈ graphs, ∀ n ∈ g.nodes, n.mentionCount = n.mentions.length) →
       ∀ n ∈ (mergeEntityGraphs graphs).nodes, n.mentionCount = n.mentions.length) := by
  constructor
  · intro gen text paragraphs dialogues chapterId g h n hn
    rcases extractEntities_some_elim h with ⟨nodes1, hal, hne, _⟩
    rw [hne] at hn
    have hcons : ∀ m ∈ (consolidateEntities gen (allRawEntities text dialogues) chapterId 0).1,
        CountLen m := by
      refine consolidateEntities_forall gen chapterId ?_ ?_ _ _
      · intro e off he; simp only [CountLen] at he ⊢; simp [he]
      · intro i name ty off; simp [CountLen]
    have halias : ∀ m ∈ nodes1, CountLen m := by
      refine detectAliasesGo_forall text ?_ aliasPatterns _ _ hal hcons
      intro e al he; simpa only [CountLen] using he
    exact resolvePronounsInText_forall text chapterId
      (by intro e off he; simp only [CountLen] at he ⊢; simp [he]) nodes1 halias n hn
  · intro graphs hg n hn
    simp only [mergeEntityGraphs] at hn
    have h1 := mem_sortDescBy _ _ _ hn
    rcases List.mem_map.1 h1 with ⟨kv, hkv, he⟩
    exact he ▸ mergeGraphsGo_countlen graphs ([], []) hg (by intro kv h; simp at h) kv hkv

/-- The Sarah node of the merge of graphA and graphB. -/
def nSarahMerged : EntityNode :=
  ⟨1, ("Sarah").toList, .character, [], 0, 2, [⟨0, chap1⟩, ⟨3, chap2⟩], []⟩

/-- C8 witness: the invariant checked on a node of a concrete extraction
and on a node of a concrete merge. -/
theorem c8_mentionCount_eq_len_witness :
    nTom.mentionCount = nTom.mentions.length ∧
    nSarahMerged.mentionCount = nSarahMerged.mentions.length :=
  ⟨c8_mentionCount_eq_len.1 idStream textTomAnn [paraTomAnn] [] chap1 gTomAnn
     extract_tomAnn_eval nTom (by decide),
   c8_mentionCount_eq_len.2 [graphA, graphB] (by decide) nSarahMerged (by decide)⟩

-- ─────────────────────────────────────────────────────────────────────────
-- C10: attribute contradictions for unknown entities.
-- ─────────────────────────────────────────────────────────────────────────

theorem alGet_mem {α β : Type} [DecidableEq α] (k : α) :
    ∀ l : List (α × β), ∀ v, alGet k l = some v → (k, v) ∈ l := by
  intro l
  induction l with
  | nil => intro v h; simp [alGet] at h
  | cons kv t ih =>
    intro v h
    match kv with
    | (a, b) =>
      simp only [alGet] at h
      by_cases ha : a = k
      · rw [if_pos ha] at h
        injection h with h
        rw [← ha, ← h]
        exact List.mem_cons_self _ _
      · rw [if_neg ha] at h
        exact List.mem_cons_of_mem _ (ih v h)

theorem alUpd_forall2 {α β : Type} [DecidableEq α] {P : α × β → Prop} (k : α) (f : β → β) :
    ∀ l : List (α × β), (∀ kv ∈ l, P kv) → (∀ a b, (a, b) ∈ l → a = k → P (a, f b)) →
      ∀ kv ∈ alUpd k f l, P kv := by
  intro l
  induction l with
  | nil => intro _ _ kv h; simp [alUpd] at h
  | cons hd t ih =>
    intro hl hf kv hm
    match hd with
    | (a, b) =>
      simp only [alUpd] at hm
      by_cases ha : a = k
      · rw [if_pos ha] at hm
        rcases List.mem_cons.1 hm with h1 | h1
        · exact h1 ▸ hf a b (List.mem_cons_self _ _) ha
        · exact hl kv (List.mem_cons_of_mem _ h1)
      · rw [if_neg ha] at hm
        rcases List.mem_cons.1 hm with h1 | h1
        · exact h1 ▸ hl (a, b) (List.mem_cons_self _ _)
        · exact ih (fun kv h => hl kv (List.mem_cons_of_mem _ h))
            (fun a2 b2 h2 he => hf a2 b2 (List.mem_cons_of_mem _ h2) he) kv h1

/-- Every attribute stored in a group carries the group key as its
lower-cased entity name. -/
abbrev GroupKeyed (acc : List (Str × List (Str × List ExtractedAttribute))) : Prop :=
  ∀ kv ∈ acc, ∀ cl ∈ kv.2, ∀ a ∈ cl.2, lowerS a.entityName = kv.1

theorem groupAttrs_keyed :
    ∀ (attrs : List ExtractedAttribute) (acc), GroupKeyed acc →
      GroupKeyed (groupAttrs attrs acc) := by
  intro attrs
  induction attrs with
  | nil => intro acc h; exact h
  | cons a rest ih =>
    intro acc hacc
    cases hAl : alGet (lowerS a.entityName) acc with
    | some cats =>
      simp only [groupAttrs, hAl]
      refine ih _ ?_
      have hcats : ∀ cl ∈ cats, ∀ b ∈ cl.2, lowerS b.entityName = lowerS a.entityName :=
        hacc _ (alGet_mem _ acc cats hAl)
      refine alUpd_forall2 _ _ acc hacc ?_
      intro a2 b2 _ he2
      intro cl hcl b hb
      rw [he2]
      cases hc : alGet a.category cats with
      | some _ =>
        rw [hc] at hcl
        refine @alUpd_forall2 _ _ _
          (fun cl => ∀ b ∈ cl.2, lowerS b.entityName = lowerS a.entityName)
          _ _ cats hcats ?_ cl hcl b hb
        intro a3 b3 h3 _ b4 hb4
        rcases List.mem_append.1 hb4 with h4 | h4
        · exact hcats (a3, b3) h3 b4 h4
        · rcases List.mem_singleton.1 h4 with rfl; rfl
      | none =>
        rw [hc] at hcl
        rcases List.mem_append.1 hcl with h4 | h4
        · exact hcats cl h4 b hb
        · rcases List.mem_singleton.1 h4 with rfl
          rcases List.mem_singleton.1 hb with rfl
          rfl
    | none =>
      simp only [groupAttrs, hAl]
      refine ih _ ?_
      intro kv hkv cl hcl b hb
      rcases List.mem_append.1 hkv with h1 | h1
      · exact hacc kv h1 cl hcl b hb
      · rcases List.mem_singleton.1 h1 with rfl
        rcases List.mem_singleton.1 hcl with rfl
        rcases List.mem_singleton.1 hb with rfl
        rfl

theorem attrPairs_mem {eid : Option Nat} {cat : Str} :
    ∀ (pairs : List (ExtractedAttribute × ExtractedAttribute))
      (st : List Contradiction × Nat),
      ∀ x ∈ (attrPairs eid cat pairs st).1,
        x ∈ st.1 ∨ (x.entityId = eid ∧ ∃ p ∈ pairs, x.entityName = p.1.entityName) := by
  intro pairs
  induction pairs with
  | nil => intro st x hx; exact Or.inl hx
  | cons p rest ih =>
    intro st x hx
    match p with
    | (a1, a2) =>
      simp only [attrPairs] at hx
      by_cases hc : areValuesCompatible cat a1.value a2.value
      · rw [if_pos hc] at hx
        rcases ih _ x hx with h | ⟨h1, p2, h2, h3⟩
        · exact Or.inl h
        · exact Or.inr ⟨h1, p2, List.mem_cons_of_mem _ h2, h3⟩
      · rw [if_neg hc] at hx
        rcases ih _ x hx with h | ⟨h1, p2, h2, h3⟩
        · rcases List.mem_append.1 h with h4 | h4
          · exact Or.inl h4
          · rcases List.mem_singleton.1 h4 with rfl
            exact Or.inr ⟨rfl, (a1, a2), List.mem_cons_self _ _, rfl⟩
        · exact Or.inr ⟨h1, p2, List.mem_cons_of_mem _ h2, h3⟩

theorem attrCats_mem {eid : Option Nat} :
    ∀ (cats : List (Str × List ExtractedAttribute)) (st : List Contradiction × Nat),
      ∀ x ∈ (attrCats eid cats st).1,
        x ∈ st.1 ∨ (x.entityId = eid ∧ ∃ cl ∈ cats, ∃ a ∈ cl.2, x.entityName = a.entityName) := by
  intro cats
  induction cats with
  | nil => intro st x hx; exact Or.inl hx
  | cons cl rest ih =>
    intro st x hx
    match cl with
    | (category, attrs) =>
      simp only [attrCats] at hx
      by_cases hlen : attrs.length < 2
      · rw [if_pos hlen] at hx
        rcases ih _ x hx with h | ⟨h1, cl2, h2, h3⟩
        · exact Or.inl h
        · exact Or.inr ⟨h1, cl2, List.mem_cons_of_mem _ h2, h3⟩
      · rw [if_neg hlen] at hx
        rcases ih _ x hx with h | ⟨h1, cl2, h2, h3⟩
        · rcases attrPairs_mem _ _ x h with h4 | ⟨h5, p, hp, h6⟩
          · exact Or.inl h4
          · refine Or.inr ⟨h5, (category, attrs), List.mem_cons_self _ _, p.1, ?_, h6⟩
            exact (ordPairs_mem p attrs hp).1
        · exact Or.inr ⟨h1, cl2, List.mem_cons_of_mem _ h2, h3⟩

theorem attrEntities_mem {nodes : List EntityNode} :
    ∀ (groups : List (Str × List (Str × List ExtractedAttribute)))
      (st : List Contradiction × Nat),
      ∀ x ∈ (attrEntities nodes groups st).1,
        x ∈ st.1 ∨ ∃ kv ∈ groups,
          x.entityId = ((nodes.find? (fun e => lowerS e.name == kv.1)).map (fun e => e.id)) ∧
          ∃ cl ∈ kv.2, ∃ a ∈ cl.2, x.entityName = a.entityName := by
  intro groups
  induction groups with
  | nil => intro st x hx; exact Or.inl hx
  | cons kv rest ih =>
    intro st x hx
    match kv with
    | (entityName, cats) =>
      simp only [attrEntities] at hx
      rcases ih _ x hx with h | ⟨kv2, h2, h3, h4⟩
      · rcases attrCats_mem _ _ x h with h5 | ⟨h6, cl, hcl, a, ha, h7⟩
        · exact Or.inl h5
        · exact Or.inr ⟨(entityName, cats), List.mem_cons_self _ _, h6, cl, hcl, a, ha, h7⟩
      · exact Or.inr ⟨kv2, List.mem_cons_of_mem _ h2, h3, h4⟩

/-- C10: a contradiction whose entity name matches no node (by
case-insensitive canonical name) is still emitted, with an empty entityId
(none models the empty string). -/
theorem c10_unmatched_entity_empty_id :
    ∀ (text : Str) (graph : EntityGraph) (c : Contradiction),
      c ∈ detectAttributeContradictions text graph →
      (∀ n ∈ graph.nodes, ¬ lowerS n.name = lowerS c.entityName) →
      c.entityId = none := by
  intro text graph c hc hnone
  simp only [detectAttributeContradictions] at hc
  rcases attrEntities_mem _ _ c hc with h | ⟨kv, hkv, hid, cl, hcl, a, ha, hname⟩
  · simp at h
  · have hkey : lowerS a.entityName = kv.1 :=
      groupAttrs_keyed (extractAttributes text) [] (by intro kv h; simp at h) kv hkv cl hcl a ha
    cases hf : graph.nodes.find? (fun e => lowerS e.name == kv.1) with
    | none => rw [hf] at hid; simpa using hid
    | some e =>
      exfalso
      have hmem := List.mem_of_find?_eq_some hf
      have hpred := List.find?_some hf
      have heq : lowerS e.name = kv.1 := eq_of_beq hpred
      exact hnone e hmem (by rw [heq, ← hkey, hname])

/-- The graph with no nodes. -/
def emptyGraph : EntityGraph := ⟨[], [], 0⟩

/-- The contradiction the detector emits on the two incompatible height
attributes of textC10 over the empty graph. -/
def c10Contra : Contradiction :=
  ⟨0, .attribute, none, ("Sarah").toList,
   ⟨textC10, 0, ("tall").toList⟩, ⟨textC10, 16, ("short").toList⟩,
   80, attrSuggestion (("Sarah").toList) (("height").toList) (("tall").toList) (("short").toList)⟩

theorem c10_eval :
    detectAttributeContradictions textC10 emptyGraph = [c10Contra] := by decide

/-- C10 witness: on textC10 with the empty graph the emitted contradiction
carries the empty entityId. -/
theorem c10_unmatched_entity_empty_id_witness : c10Contra.entityId = none :=
  c10_unmatched_entity_empty_id textC10 emptyGraph c10Contra
    (by rw [c10_eval]; exact List.mem_singleton_self _)
    (by intro n hn; simp [emptyGraph] at hn)

-- ─────────────────────────────────────────────────────────────────────────
-- C7: the closest-preceding-mention search.
-- ─────────────────────────────────────────────────────────────────────────

/-- Distances from the given offset back to the strictly preceding
mentions of a mention list. -/
def mdists (offset : Nat) (ms : List Mention) : List Nat :=
  (ms.filter (fun m => m.offset < offset)).map (fun m => offset - m.offset)

/-- Distances from the offset back to the strictly preceding mentions of a
node. -/
def nodeDists (offset : Nat) (e : EntityNode) : List Nat := mdists offset e.mentions

/-- All preceding-mention distances over a candidate list. -/
def allDists (offset : Nat) : List EntityNode → List Nat
  | [] => []
  | e :: es => nodeDists offset e ++ allDists offset es

/-- Strictly-below test on distances, none being the JS Infinity. -/
def oLtB : Option Nat → Option Nat → Bool
  | none, _ => false
  | some _, none => true
  | some d, some c => decide (d < c)

/-- The running-best update: replace the current best only on a strict
improvement. -/
def updB (cur cand : Option Nat) : Option Nat := if oLtB cand cur then cand else cur

/-- Minimum combination with none as infinity. -/
def ominC : Option Nat → Option Nat → Option Nat
  | none, y => y
  | some a, none => some a
  | some a, some b => some (min a b)

theorem updB_none (x : Option Nat) : updB none x = x := by
  rcases x with _ | v <;> simp [updB, oLtB]

theorem updB_right_none (x : Option Nat) : updB x none = x := by
  rcases x with _ | v <;> simp [updB, oLtB]

theorem updB_some_some (a b : Nat) : updB (some a) (some b) = some (min b a) := by
  simp only [updB, oLtB]
  by_cases h : b < a
  · simp [h, Nat.min_eq_left (Nat.le_of_lt h)]
  · simp [h, Nat.min_eq_right (Nat.le_of_not_lt h)]

theorem updB_chain : ∀ (a x y : Option Nat), updB (updB a x) y = updB a (ominC x y) := by
  intro a x y
  rcases x with _ | xv
  · rw [updB_right_none]
    rcases y with _ | yv <;> simp [ominC]
  · rcases y with _ | yv
    · rw [updB_right_none]
      simp [ominC]
    · rcases a with _ | av
      · rw [updB_none, updB_none]
        rw [updB_some_some]
        simp only [ominC]
        rw [Nat.min_comm]
      · rw [updB_some_some, updB_some_some]
        simp only [ominC]
        rw [updB_some_some]
        congr 1
        simp only [Nat.min_def]
        split_ifs <;> omega

theorem ominC_assoc : ∀ x y z : Option Nat, ominC (ominC x y) z = ominC x (ominC y z) := by
  intro x y z
  rcases x <;> rcases y <;> rcases z <;> simp [ominC, Nat.min_assoc]

theorem listMinO_cons (x : Nat) (l : List Nat) :
    listMinO (x :: l) = ominC (some x) (listMinO l) := by
  simp only [listMinO]
  rcases listMinO l with _ | a <;> simp [ominC]

theorem listMinO_append : ∀ l1 l2 : List Nat,
    listMinO (l1 ++ l2) = ominC (listMinO l1) (listMinO l2) := by
  intro l1 l2
  induction l1 with
  | nil => simp [listMinO, ominC]
  | cons x t ih =>
    rw [List.cons_append, listMinO_cons, ih, listMinO_cons, ominC_assoc]

/-- The inner search over one node, reformulated over the distance list. -/
def bestFold (e : EntityNode) : List Nat → EntityNode × Option Nat → EntityNode × Option Nat
  | [], acc => acc
  | d :: ds, acc => bestFold e ds (if oLtB (some d) acc.2 then (e, some d) else acc)

theorem scanMentions_eq_bestFold (e : EntityNode) (offset : Nat) :
    ∀ (ms : List Mention) (acc : EntityNode × Option Nat),
      scanMentions e offset ms acc = bestFold e (mdists offset ms) acc := by
  intro ms
  induction ms with
  | nil => intro acc; simp [scanMentions, mdists, bestFold]
  | cons m rest ih =>
    intro acc
    by_cases hm : m.offset < offset
    · have hd : mdists offset (m :: rest) = (offset - m.offset) :: mdists offset rest := by
        simp [mdists, hm]
      rw [hd]
      cases hacc : acc.2 with
      | none =>
        have h1 : scanMentions e offset (m :: rest) acc =
            scanMentions e offset rest (e, some (offset - m.offset)) := by
          simp [scanMentions, hm, hacc]
        have h2 : bestFold e ((offset - m.offset) :: mdists offset rest) acc =
            bestFold e (mdists offset rest) (e, some (offset - m.offset)) := by
          simp [bestFold, oLtB, hacc]
        rw [h1, h2, ih]
      | some bd =>
        by_cases hdb : offset - m.offset < bd
        · have h1 : scanMentions e offset (m :: rest) acc =
              scanMentions e offset rest (e, some (offset - m.offset)) := by
            simp [scanMentions, hm, hacc, hdb]
          have h2 : bestFold e ((offset - m.offset) :: mdists offset rest) acc =
              bestFold e (mdists offset rest) (e, some (offset - m.offset)) := by
            simp [bestFold, oLtB, hacc, hdb]
          rw [h1, h2, ih]
        · have h1 : scanMentions e offset (m :: rest) acc =
              scanMentions e offset rest acc := by
            simp [scanMentions, hm, hacc, hdb]
          have h2 : bestFold e ((offset - m.offset) :: mdists offset rest) acc =
              bestFold e (mdists offset rest) acc := by
            simp [bestFold, oLtB, hacc, hdb]
          rw [h1, h2, ih]
    · have hd : mdists offset (m :: rest) = mdists offset rest := by
        simp [mdists, hm]
      have h1 : scanMentions e offset (m :: rest) acc = scanMentions e offset rest acc := by
        simp [scanMentions, hm]
      rw [h1, hd, ih]

theorem bestFold_min (e : EntityNode) :
    ∀ (ds : List Nat) (acc : EntityNode × Option Nat),
      (bestFold e ds acc).2 = updB acc.2 (listMinO ds) := by
  intro ds
  induction ds with
  | nil => intro acc; simp [bestFold, listMinO, updB, oLtB]
  | cons d rest ih =>
    intro acc
    have hstep : bestFold e (d :: rest) acc =
        bestFold e rest (if oLtB (some d) acc.2 then (e, some d) else acc) := rfl
    rw [hstep, ih]
    have hupd : (if oLtB (some d) acc.2 then ((e, some d) : EntityNode × Option Nat) else acc).2 =
        updB acc.2 (some d) := by
      simp only [updB]
      split <;> simp_all
    rw [hupd, updB_chain, ← listMinO_cons]

theorem bestFold_winner (e : EntityNode) :
    ∀ (ds : List Nat) (acc : EntityNode × Option Nat),
      ((bestFold e ds acc).1 = acc.1 ∧ (bestFold e ds acc).2 = acc.2) ∨
      ((bestFold e ds acc).1 = e ∧ ∃ d ∈ ds, (bestFold e ds acc).2 = some d) := by
  intro ds
  induction ds with
  | nil => intro acc; exact Or.inl ⟨rfl, rfl⟩
  | cons d rest ih =>
    intro acc
    have hstep : bestFold e (d :: rest) acc =
        bestFold e rest (if oLtB (some d) acc.2 then (e, some d) else acc) := rfl
    by_cases hc : oLtB (some d) acc.2
    · rw [hstep, if_pos hc]
      rcases ih ((e, some d)) with ⟨h1, h2⟩ | ⟨h1, d2, hd2, h2⟩
      · exact Or.inr ⟨h1, d, List.mem_cons_self _ _, h2⟩
      · exact Or.inr ⟨h1, d2, List.mem_cons_of_mem _ hd2, h2⟩
    · rw [hstep, if_neg hc]
      rcases ih acc with ⟨h1, h2⟩ | ⟨h1, d2, hd2, h2⟩
      · exact Or.inl ⟨h1, h2⟩
      · exact Or.inr ⟨h1, d2, List.mem_cons_of_mem _ hd2, h2⟩

theorem scanCands_min (offset : Nat) :
    ∀ (cands : List EntityNode) (acc : EntityNode × Option Nat),
      (scanCands offset cands acc).2 = updB acc.2 (listMinO (allDists offset cands)) := by
  intro cands
  induction cands with
  | nil => intro acc; simp [scanCands, allDists, listMinO, updB, oLtB]
  | cons e rest ih =>
    intro acc
    have hstep : scanCands offset (e :: rest) acc =
        scanCands offset rest (scanMentions e offset e.mentions acc) := rfl
    rw [hstep, ih, scanMentions_eq_bestFold, bestFold_min]
    rw [updB_chain]
    have : allDists offset (e :: rest) = nodeDists offset e ++ allDists offset rest := rfl
    rw [this, listMinO_append]
    rfl

theorem scanCands_winner (offset : Nat) :
    ∀ (cands : List EntityNode) (acc : EntityNode × Option Nat),
      ((scanCands offset cands acc).1 = acc.1 ∧ (scanCands offset cands acc).2 = acc.2) ∨
      (∃ e ∈ cands, (scanCands offset cands acc).1 = e ∧
        ∃ d, (scanCands offset cands acc).2 = some d ∧ d ∈ nodeDists offset e) := by
  intro cands
  induction cands with
  | nil => intro acc; exact Or.inl ⟨rfl, rfl⟩
  | cons e rest ih =>
    intro acc
    have hstep : scanCands offset (e :: rest) acc =
        scanCands offset rest (scanMentions e offset e.mentions acc) := rfl
    rw [hstep]
    have hinner := scanMentions_eq_bestFold e offset e.mentions acc
    rcases ih (scanMentions e offset e.mentions acc) with ⟨h1, h2⟩ | ⟨e2, he2, h1, d2, h2, h3⟩
    · rcases bestFold_winner e (mdists offset e.mentions) acc with ⟨g1, g2⟩ | ⟨g1, dd, hdd, g2⟩
      · exact Or.inl ⟨by rw [h1, hinner, g1], by rw [h2, hinner, g2]⟩
      · refine Or.inr ⟨e, List.mem_cons_self _ _, by rw [h1, hinner, g1], dd,
          by rw [h2, hinner, g2], hdd⟩
    · exact Or.inr ⟨e2, List.mem_cons_of_mem _ he2, h1, d2, h2, h3⟩

/-- C7 counterexample: on the text (He saw Marcus.) with the single
character node Marcus (one mention at offset 7), the pronoun at offset 0
has no gender-compatible candidate with any mention strictly before it,
yet resolvePronounsInText accepts a resolution to Marcus with confidence
0.5 (50 in hundredths), refuting the claim that every accepted resolution
points at a node with a strictly preceding mention. -/
theorem c7_accepts_without_preceding_mention_cex :
    (resolvePronounsInText textC7 [marcusNode] chap1).1 =
      [⟨("He").toList, 0, 1, 50⟩] ∧
    marcusNode.mentions.all (fun m => decide (¬ m.offset < 0)) = true := by
  refine ⟨by decide, by decide⟩

/-- C7 amended: an accepted resolution picks, among the candidate set the
source actually uses (character nodes narrowed by gender compatibility,
falling back to all characters when the filter empties), a node achieving
the minimum strictly-preceding-mention distance whenever any candidate has
a mention strictly before the pronoun, with confidence 0.9 below 100
characters, 0.7 below 300, else 0.5 (in hundredths); when no candidate has
a preceding mention, the first candidate is nevertheless accepted with
confidence 0.5. -/
theorem c7_resolvePronoun_characterization :
    ∀ (pronoun : Str) (offset : Nat) (cs : List EntityNode) (text : Str) (r : CoReference),
      resolvePronoun pronoun offset cs text = some r →
      (50 : Int) ≤ r.confidence →
      ((listMinO (allDists offset (genderCands pronoun cs text)) = none →
          (genderCands pronoun cs text).head?.map EntityNode.id = some r.resolvedTo ∧
          r.confidence = 50) ∧
       (∀ d, listMinO (allDists offset (genderCands pronoun cs text)) = some d →
          (∃ e, e ∈ genderCands pronoun cs text ∧ r.resolvedTo = e.id ∧
             d ∈ nodeDists offset e) ∧
          r.confidence = (if d < 100 then 90 else if d < 300 then 70 else 50))) := by
  intro pronoun offset cs text r h _hacc
  cases hgc : genderCands pronoun cs text with
  | nil =>
    simp only [resolvePronoun, hgc] at h
    exact absurd h (by simp)
  | cons c0 rest =>
    simp only [resolvePronoun, hgc, Option.some.injEq] at h
    subst h
    constructor
    · intro hmin
      have h2 := scanCands_min offset (c0 :: rest) (c0, none)
      rw [hmin] at h2
      have hb2 : (scanCands offset (c0 :: rest) (c0, none)).2 = none := by
        rw [h2]; rfl
      rcases scanCands_winner offset (c0 :: rest) (c0, none) with ⟨g1, _⟩ | ⟨e, _, _, d, hd, _⟩
      · constructor
        · show (c0 :: rest).head?.map EntityNode.id =
            some (scanCands offset (c0 :: rest) (c0, none)).1.id
          rw [g1]
          rfl
        · show confOf (scanCands offset (c0 :: rest) (c0, none)).2 = 50
          rw [hb2]
          rfl
      · rw [hb2] at hd
        exact absurd hd (by simp)
    · intro d hmind
      have h2 := scanCands_min offset (c0 :: rest) (c0, none)
      rw [hmind] at h2
      have hb2 : (scanCands offset (c0 :: rest) (c0, none)).2 = some d := by
        rw [h2]; rfl
      rcases scanCands_winner offset (c0 :: rest) (c0, none) with ⟨_, g2⟩ | ⟨e, he, g1, d2, hd2, hd3⟩
      · rw [hb2] at g2
        exact absurd g2.symm (by simp)
      · have hdd : d2 = d := by
          rw [hb2] at hd2
          injection hd2.symm
        constructor
        · exact ⟨e, he, by rw [g1], hdd ▸ hd3⟩
        · show confOf (scanCands offset (c0 :: rest) (c0, none)).2 =
            (if d < 100 then 90 else if d < 300 then 70 else 50)
          rw [hb2]
          rfl

/-- C7 witness: the pronoun at offset 10 with Marcus mentioned at offset 7
resolving at distance 3 with confidence 0.9. -/
theorem c7_resolvePronoun_characterization_witness :
    ((resolvePronoun (("He").toList) 10 [marcusNode] textC7).getD
      ⟨[], 0, 0, 0⟩).confidence = 90 := by
  have h : resolvePronoun (("He").toList) 10 [marcusNode] textC7 =
      some ⟨("He").toList, 10, 1, 90⟩ := by decide
  have hmin : listMinO (allDists 10 (genderCands (("He").toList) [marcusNode] textC7)) =
      some 3 := by decide
  have hmain := (c7_resolvePronoun_characterization (("He").toList) 10 [marcusNode] textC7
    ⟨("He").toList, 10, 1, 90⟩ h (by decide)).2 3 hmin
  rw [h]
  exact hmain.2

-- ─────────────────────────────────────────────────────────────────────────
-- C9: determinism up to the opaque ids.  The extraction pipeline is run
-- with an abstract injective id stream (one draw of the random generator);
-- the factorization below shows a run with any injective stream equals the
-- canonical run with the identity stream with ids relabelled, so any two
-- runs agree after erasing id fields.
-- ─────────────────────────────────────────────────────────────────────────

/-- Relabel the id of a node. -/
def mapNodeId (gen : Nat → Nat) (n : EntityNode) : EntityNode := { n with id := gen n.id }

/-- Relabel the id fields of an edge. -/
def mapEdgeId (gen : Nat → Nat) (e : EntityEdge) : EntityEdge :=
  { e with id := gen e.id, source := gen e.source, target := gen e.target }

/-- Relabel an edge-map key. -/
def kmap (gen : Nat → Nat) (k : Nat × Nat) : Nat × Nat := edgeKey (gen k.1) (gen k.2)

/-- Relabel a whole graph. -/
def mapGraphIds (gen : Nat → Nat) (g : EntityGraph) : EntityGraph :=
  ⟨g.nodes.map (mapNodeId gen), g.edges.map (mapEdgeId gen), g.processedAt⟩

theorem minmax_cases (a b c d : Nat) (h1 : min a b = min c d) (h2 : max a b = max c d) :
    (a = c ∧ b = d) ∨ (a = d ∧ b = c) := by omega

theorem kmap_inj_sorted (gen : Nat → Nat) (hinj : Function.Injective gen)
    {p q : Nat × Nat} (hp : p.1 ≤ p.2) (hq : q.1 ≤ q.2) :
    kmap gen p = kmap gen q → p = q := by
  intro h
  simp only [kmap, edgeKey, Prod.mk.injEq] at h
  rcases minmax_cases _ _ _ _ h.1 h.2 with ⟨h1, h2⟩ | ⟨h1, h2⟩
  · have e1 := hinj h1
    have e2 := hinj h2
    exact Prod.ext e1 e2
  · have e1 := hinj h1
    have e2 := hinj h2
    have : p.1 = p.2 := by omega
    have : q.1 = q.2 := by omega
    refine Prod.ext (by omega) (by omega)

theorem edgeKey_map (gen : Nat → Nat) (a b : Nat) :
    edgeKey (gen a) (gen b) = kmap gen (edgeKey a b) := by
  rcases Nat.le_total a b with h | h
  · simp [edgeKey, kmap, Nat.min_eq_left h, Nat.max_eq_right h]
  · simp [edgeKey, kmap, Nat.min_eq_right h, Nat.max_eq_left h, Nat.min_comm, Nat.max_comm]

theorem edgeKey_sorted (a b : Nat) : (edgeKey a b).1 ≤ (edgeKey a b).2 := by
  simp only [edgeKey]
  omega

theorem alGet_vmap {α β γ : Type} [DecidableEq α] (g : β → γ) (k : α) :
    ∀ l : List (α × β),
      alGet k (l.map (fun kv => (kv.1, g kv.2))) = (alGet k l).map g := by
  intro l
  induction l with
  | nil => rfl
  | cons kv t ih => by_cases h : kv.1 = k <;> simp [alGet, h, ih]

theorem alUpd_vmap {α β γ : Type} [DecidableEq α] (g : β → γ) (k : α)
    (f1 : β → β) (f2 : γ → γ) (h : ∀ b, f2 (g b) = g (f1 b)) :
    ∀ l : List (α × β),
      alUpd k f2 (l.map (fun kv => (kv.1, g kv.2))) =
        (alUpd k f1 l).map (fun kv => (kv.1, g kv.2)) := by
  intro l
  induction l with
  | nil => rfl
  | cons kv t ih => by_cases hk : kv.1 = k <;> simp [alUpd, hk, ih, h]

theorem alGet_emap (gen : Nat → Nat) (hinj : Function.Injective gen) (k : Nat × Nat)
    (hk : k.1 ≤ k.2) :
    ∀ l : List ((Nat × Nat) × EntityEdge), (∀ kv ∈ l, kv.1.1 ≤ kv.1.2) →
      alGet (kmap gen k) (l.map (fun kv => (kmap gen kv.1, mapEdgeId gen kv.2))) = (alGet k l).map (mapEdgeId gen) := by
  intro l
  induction l with
  | nil => intro _; rfl
  | cons kv t ih =>
    intro hs
    have hkv : kv.1.1 ≤ kv.1.2 := hs kv (List.mem_cons_self _ _)
    by_cases h : kv.1 = k
    · simp [alGet, h, alGet_vmap]
    · have hne : ¬ kmap gen kv.1 = kmap gen k :=
        fun he => h (kmap_inj_sorted gen hinj hkv hk he)
      simp [alGet, h, hne,
        ih (fun kv2 h2 => hs kv2 (List.mem_cons_of_mem _ h2))]

theorem alUpd_emap (gen : Nat → Nat) (hinj : Function.Injective gen) (k : Nat × Nat)
    (hk : k.1 ≤ k.2) (f1 f2 : EntityEdge → EntityEdge)
    (h : ∀ b, f2 (mapEdgeId gen b) = mapEdgeId gen (f1 b)) :
    ∀ l : List ((Nat × Nat) × EntityEdge), (∀ kv ∈ l, kv.1.1 ≤ kv.1.2) →
      alUpd (kmap gen k) f2 (l.map (fun kv => (kmap gen kv.1, mapEdgeId gen kv.2))) =
        (alUpd k f1 l).map (fun kv => (kmap gen kv.1, mapEdgeId gen kv.2)) := by
  intro l
  induction l with
  | nil => intro _; rfl
  | cons kv t ih =>
    intro hs
    have hkv : kv.1.1 ≤ kv.1.2 := hs kv (List.mem_cons_self _ _)
    by_cases hkk : kv.1 = k
    · simp [alUpd, hkk, h]
    · have hne : ¬ kmap gen kv.1 = kmap gen k :=
        fun he => hkk (kmap_inj_sorted gen hinj hkv hk he)
      simp [alUpd, hkk, hne,
        ih (fun kv2 h2 => hs kv2 (List.mem_cons_of_mem _ h2))]

theorem alUpd_keys_sorted (k : Nat × Nat) (f : EntityEdge → EntityEdge) :
    ∀ l : List ((Nat × Nat) × EntityEdge), (∀ kv ∈ l, kv.1.1 ≤ kv.1.2) →
      ∀ kv ∈ alUpd k f l, kv.1.1 ≤ kv.1.2 := by
  intro l hs
  refine @alUpd_forall2 _ _ _ (fun kv => kv.1.1 ≤ kv.1.2) k f l hs ?_
  intro a b hab _
  exact hs (a, b) hab

theorem filter_map_comm {α β : Type} (f : α → β) (p : β → Bool) (q : α → Bool)
    (h : ∀ x, p (f x) = q x) :
    ∀ l : List α, (l.map f).filter p = (l.filter q).map f := by
  intro l
  induction l with
  | nil => rfl
  | cons x t ih =>
    by_cases hx : q x
    · simp [List.filter, h, hx, ih]
    · simp [List.filter, h, hx, ih]

theorem find?_map_comm {α β : Type} (f : α → β) (p : β → Bool) (q : α → Bool)
    (h : ∀ x, p (f x) = q x) :
    ∀ l : List α, (l.map f).find? p = (l.find? q).map f := by
  intro l
  induction l with
  | nil => rfl
  | cons x t ih =>
    by_cases hx : q x
    · simp [List.find?, h, hx]
    · simp [List.find?, h, hx, ih]

theorem ordPairs_map {α β : Type} (f : α → β) :
    ∀ l : List α, ordPairs (l.map f) = (ordPairs l).map (fun p => (f p.1, f p.2)) := by
  intro l
  induction l with
  | nil => rfl
  | cons x t ih =>
    simp only [List.map_cons, ordPairs, ih, List.map_append, List.map_map]
    rfl

theorem insDescBy_map {α α2 β : Type} [LinearOrder β] (g : α → α2) (f2 : α2 → β)
    (f1 : α → β) (h : ∀ x, f2 (g x) = f1 x) (x : α) :
    ∀ l : List α, insDescBy f2 (g x) (l.map g) = (insDescBy f1 x l).map g := by
  intro l
  induction l with
  | nil => rfl
  | cons y t ih =>
    by_cases hc : f1 x < f1 y
    · simp [insDescBy, h, hc, ih]
    · simp [insDescBy, h, hc]

theorem sortDescBy_map {α α2 β : Type} [LinearOrder β] (g : α → α2) (f2 : α2 → β)
    (f1 : α → β) (h : ∀ x, f2 (g x) = f1 x) :
    ∀ l : List α, sortDescBy f2 (l.map g) = (sortDescBy f1 l).map g := by
  intro l
  induction l with
  | nil => rfl
  | cons x t ih => simp [sortDescBy, ih, insDescBy_map g f2 f1 h]

-- Stage commutation: consolidation.

theorem consGo_map (gen : Nat → Nat) (cid : Str) :
    ∀ (raw : List RawEntity) (acc : List (Str × EntityNode)) (c : Nat),
      consGo gen cid raw (acc.map (fun kv => (kv.1, mapNodeId gen kv.2))) c =
        ((consGo idStream cid raw acc c).1.map (fun kv => (kv.1, mapNodeId gen kv.2)),
         (consGo idStream cid raw acc c).2) := by
  intro raw
  induction raw with
  | nil => intro acc c; rfl
  | cons r rest ih =>
    intro acc c
    have hget : alGet (lowerS r.name)
        (acc.map (fun kv => (kv.1, mapNodeId gen kv.2))) =
        (alGet (lowerS r.name) acc).map (mapNodeId gen) := alGet_vmap _ _ acc
    cases hAl : alGet (lowerS r.name) acc with
    | some e =>
      rw [hAl] at hget
      simp only [consGo, hget, hAl, Option.map_some']
      rw [alUpd_vmap (mapNodeId gen) (lowerS r.name)
        (fun e => { e with mentionCount := e.mentionCount + 1,
                           mentions := e.mentions ++ [⟨r.offset, cid⟩] })
        (fun e => { e with mentionCount := e.mentionCount + 1,
                           mentions := e.mentions ++ [⟨r.offset, cid⟩] })
        (fun b => rfl) acc, ih]
    | none =>
      rw [hAl] at hget
      simp only [consGo, hget, hAl, Option.map_none']
      have hx : acc.map (fun kv => (kv.1, mapNodeId gen kv.2)) ++
          [(lowerS r.name, (⟨gen c, r.name, r.type, [], r.offset, 1,
            [⟨r.offset, cid⟩], []⟩ : EntityNode))] =
          (acc ++ [(lowerS r.name, (⟨c, r.name, r.type, [], r.offset, 1,
            [⟨r.offset, cid⟩], []⟩ : EntityNode))]).map
            (fun kv => (kv.1, mapNodeId gen kv.2)) := by
        simp [mapNodeId]
      rw [hx, ih]
      rfl

theorem consolidateEntities_map (gen : Nat → Nat) (cid : Str)
    (raw : List RawEntity) (c0 : Nat) :
    consolidateEntities gen raw cid c0 =
      ((consolidateEntities idStream raw cid c0).1.map (mapNodeId gen),
       (consolidateEntities idStream raw cid c0).2) := by
  simp only [consolidateEntities]
  have h0 : consGo gen cid raw [] c0 =
      consGo gen cid raw (([] : List (Str × EntityNode)).map
        (fun kv => (kv.1, mapNodeId gen kv.2))) c0 := rfl
  rw [h0, consGo_map]
  refine Prod.ext ?_ rfl
  have hm : (((consGo idStream cid raw [] c0).1.map
        (fun kv => (kv.1, mapNodeId gen kv.2))).map Prod.snd) =
      ((consGo idStream cid raw [] c0).1.map Prod.snd).map (mapNodeId gen) := by
    simp [List.map_map]
  rw [hm]
  exact sortDescBy_map (mapNodeId gen) _ _ (fun x => rfl) _

-- Stage commutation: aliases.

theorem aliasApply_map (gen : Nat → Nat) (r1 r2 : Str) (nodes : List EntityNode) :
    aliasApply r1 r2 (nodes.map (mapNodeId gen)) =
      (aliasApply r1 r2 nodes).map (mapNodeId gen) := by
  simp only [aliasApply, List.map_map]
  congr 1
  funext e
  dsimp only [Function.comp, mapNodeId]
  split_ifs <;> rfl

theorem aliasMatches_map (gen : Nat → Nat) (text : Str) :
    ∀ (ms : List MatchRes) (nodes : List EntityNode),
      aliasMatches text ms (nodes.map (mapNodeId gen)) =
        (aliasMatches text ms nodes).map (List.map (mapNodeId gen)) := by
  intro ms
  induction ms with
  | nil => intro nodes; rfl
  | cons m rest ih =>
    intro nodes
    cases h1 : m.grp? text 1 with
    | none => simp [aliasMatches, h1]
    | some r1 =>
      cases h2 : m.grp? text 2 with
      | none => simp [aliasMatches, h1, h2]
      | some r2 => simp only [aliasMatches, h1, h2, aliasApply_map, ih]

theorem detectAliases_map (gen : Nat → Nat) (text : Str) :
    ∀ (rs : List Rx) (nodes : List EntityNode),
      detectAliasesGo text rs (nodes.map (mapNodeId gen)) =
        (detectAliasesGo text rs nodes).map (List.map (mapNodeId gen)) := by
  intro rs
  induction rs with
  | nil => intro nodes; rfl
  | cons r rest ih =>
    intro nodes
    rw [detectAliasesGo, detectAliasesGo, aliasMatches_map]
    cases hm : aliasMatches text (execAll r text) nodes with
    | none => rfl
    | some mid => simp only [Option.map_some', ih]

-- Stage commutation: gender inference and pronoun resolution.

theorem isEmpty_map {α β : Type} (f : α → β) : ∀ l : List α, (l.map f).isEmpty = l.isEmpty := by
  intro l; cases l <;> rfl

theorem inferGender_map (gen : Nat → Nat) (e : EntityNode) (text : Str) :
    inferGender (mapNodeId gen e) text = inferGender e text := rfl

theorem genderCands_map (gen : Nat → Nat) (p : Str) (cs : List EntityNode) (t : Str) :
    genderCands p (cs.map (mapNodeId gen)) t = (genderCands p cs t).map (mapNodeId gen) := by
  simp only [genderCands]
  rw [filter_map_comm (mapNodeId gen) (fun e => e.type == EntityType.character)
    (fun e => e.type == EntityType.character) (fun x => rfl) cs]
  by_cases hm : MALE_PRONOUNS.contains (lowerS p)
  · simp only [hm, if_true]
    rw [filter_map_comm (mapNodeId gen)
      (fun e => (inferGender e t == Gender.male || inferGender e t == Gender.unknown))
      (fun e => (inferGender e t == Gender.male || inferGender e t == Gender.unknown))
      (fun x => rfl), isEmpty_map]
    split_ifs <;> rfl
  · simp only [hm, Bool.false_eq_true, if_false]
    by_cases hf : FEMALE_PRONOUNS.contains (lowerS p)
    · simp only [hf, if_true]
      rw [filter_map_comm (mapNodeId gen)
        (fun e => (inferGender e t == Gender.female || inferGender e t == Gender.unknown))
        (fun e => (inferGender e t == Gender.female || inferGender e t == Gender.unknown))
        (fun x => rfl), isEmpty_map]
      split_ifs <;> rfl
    · simp only [hf, Bool.false_eq_true, if_false]

theorem scanMentions_map (gen : Nat → Nat) (e : EntityNode) (off : Nat) :
    ∀ (ms : List Mention) (b : EntityNode) (bd : Option Nat),
      scanMentions (mapNodeId gen e) off ms (mapNodeId gen b, bd) =
        (mapNodeId gen (scanMentions e off ms (b, bd)).1,
         (scanMentions e off ms (b, bd)).2) := by
  intro ms
  induction ms with
  | nil => intro b bd; rfl
  | cons m rest ih =>
    intro b bd
    by_cases hm : m.offset < off
    · cases bd with
      | none =>
        simp only [scanMentions, hm, if_pos]
        exact ih e (some (off - m.offset))
      | some v =>
        by_cases hd : off - m.offset < v
        · simp only [scanMentions, hm, if_pos, hd]
          exact ih e (some (off - m.offset))
        · simp only [scanMentions, hm, if_pos, hd, if_neg, not_false_eq_true]
          exact ih b (some v)
    · simp only [scanMentions, hm, if_neg, not_false_eq_true]
      exact ih b bd

theorem scanCands_map (gen : Nat → Nat) (off : Nat) :
    ∀ (cands : List EntityNode) (b : EntityNode) (bd : Option Nat),
      scanCands off (cands.map (mapNodeId gen)) (mapNodeId gen b, bd) =
        (mapNodeId gen (scanCands off cands (b, bd)).1,
         (scanCands off cands (b, bd)).2) := by
  intro cands
  induction cands with
  | nil => intro b bd; rfl
  | cons e rest ih =>
    intro b bd
    have h1 : scanCands off ((e :: rest).map (mapNodeId gen)) (mapNodeId gen b, bd) =
        scanCands off (rest.map (mapNodeId gen))
          (scanMentions (mapNodeId gen e) off (mapNodeId gen e).mentions
            (mapNodeId gen b, bd)) := rfl
    have h2 : (mapNodeId gen e).mentions = e.mentions := rfl
    rw [h1, h2, scanMentions_map]
    have h3 := ih (scanMentions e off e.mentions (b, bd)).1
      (scanMentions e off e.mentions (b, bd)).2
    rw [h3]
    rfl

theorem resolvePronoun_map (gen : Nat → Nat) (p : Str) (off : Nat)
    (cs : List EntityNode) (t : Str) :
    resolvePronoun p off (cs.map (mapNodeId gen)) t =
      (resolvePronoun p off cs t).map
        (fun r => { r with resolvedTo := gen r.resolvedTo }) := by
  simp only [resolvePronoun, genderCands_map]
  cases hgc : genderCands p cs t with
  | nil => rfl
  | cons c0 rest =>
    simp only [List.map_cons]
    rw [show ((mapNodeId gen c0) :: rest.map (mapNodeId gen)) =
      (c0 :: rest).map (mapNodeId gen) from rfl]
    rw [scanCands_map]
    rfl

theorem updFirstById_map (gen : Nat → Nat) (hinj : Function.Injective gen) (i : Nat)
    (f1 f2 : EntityNode → EntityNode)
    (hcomm : ∀ e, f2 (mapNodeId gen e) = mapNodeId gen (f1 e)) :
    ∀ l : List EntityNode,
      updFirstById (gen i) f2 (l.map (mapNodeId gen)) =
        (updFirstById i f1 l).map (mapNodeId gen) := by
  intro l
  induction l with
  | nil => rfl
  | cons e es ih =>
    by_cases he : e.id = i
    · have hb : ((mapNodeId gen e).id == gen i) = true := by
        simp [mapNodeId, he]
      have hb2 : (e.id == i) = true := by simp [he]
      simp only [List.map_cons, updFirstById, hb, hb2, if_true, hcomm]
    · have hb : ((mapNodeId gen e).id == gen i) = false := by
        simp only [mapNodeId]
        simp only [beq_eq_false_iff_ne, ne_eq]
        exact fun hEq => he (hinj hEq)
      have hb2 : (e.id == i) = false := by
        simp [he]
      simp only [List.map_cons, updFirstById, hb, hb2, Bool.false_eq_true, if_false, ih]

theorem pronGo_map (gen : Nat → Nat) (hinj : Function.Injective gen) (text cid : Str) :
    ∀ (ms : List MatchRes) (crs : List CoReference) (nodes : List EntityNode),
      pronGo text cid ms (crs.map (fun r => { r with resolvedTo := gen r.resolvedTo }))
          (nodes.map (mapNodeId gen)) =
        ((pronGo text cid ms crs nodes).1.map (fun r => { r with resolvedTo := gen r.resolvedTo }),
         (pronGo text cid ms crs nodes).2.map (mapNodeId gen)) := by
  intro ms
  induction ms with
  | nil => intro crs nodes; rfl
  | cons m rest ih =>
    intro crs nodes
    have hchar : (nodes.map (mapNodeId gen)).filter (fun e => e.type == EntityType.character) =
        (nodes.filter (fun e => e.type == EntityType.character)).map (mapNodeId gen) :=
      filter_map_comm _ _ _ (fun x => rfl) nodes
    simp only [pronGo, hchar, resolvePronoun_map]
    cases hr : resolvePronoun ((m.grp? text 1).getD [])
        m.index (nodes.filter (fun e => e.type == EntityType.character)) text with
    | none => exact ih crs nodes
    | some r =>
      simp only [Option.map_some']
      by_cases hc : (50 : Int) ≤ r.confidence
      · simp only [hc, if_pos]
        have happ : crs.map (fun r => { r with resolvedTo := gen r.resolvedTo }) ++
            [{ r with resolvedTo := gen r.resolvedTo }] =
            (crs ++ [r]).map (fun r => { r with resolvedTo := gen r.resolvedTo }) := by
          simp
        rw [happ]
        rw [updFirstById_map gen hinj r.resolvedTo
          (fun e => { e with mentions := e.mentions ++ [⟨m.index, cid⟩],
                             mentionCount := e.mentionCount + 1 })
          (fun e => { e with mentions := e.mentions ++ [⟨m.index, cid⟩],
                             mentionCount := e.mentionCount + 1 })
          (fun e => rfl) nodes]
        exact ih _ _
      · simp only [hc, if_neg, not_false_eq_true]
        exact ih crs nodes

theorem resolvePronounsInText_map (gen : Nat → Nat) (hinj : Function.Injective gen)
    (text : Str) (nodes : List EntityNode) (cid : Str) :
    resolvePronounsInText text (nodes.map (mapNodeId gen)) cid =
      ((resolvePronounsInText text nodes cid).1.map
         (fun r => { r with resolvedTo := gen r.resolvedTo }),
       (resolvePronounsInText text nodes cid).2.map (mapNodeId gen)) := by
  simp only [resolvePronounsInText]
  rw [filter_map_comm (mapNodeId gen) (fun e => e.type == EntityType.character)
    (fun e => e.type == EntityType.character) (fun x => rfl) nodes, isEmpty_map]
  by_cases he : (nodes.filter (fun e => e.type == EntityType.character)).isEmpty
  · simp only [he, if_pos]
    rfl
  · simp only [he, Bool.false_eq_true, if_neg, not_false_eq_true]
    exact pronGo_map gen hinj text cid (execAll pronounRx text) [] nodes

-- Stage commutation: relationship detection.  The edge map is keyed by
-- sorted id pairs, so every lemma carries the sortedness invariant.

theorem coOccStep_sorted (gen : Nat → Nat) (cid snip : Str) (st : EdgeAcc)
    (hs : ∀ kv ∈ st.list, kv.1.1 ≤ kv.1.2) (p : EntityNode × EntityNode) :
    ∀ kv ∈ (coOccStep gen cid snip st p).list, kv.1.1 ≤ kv.1.2 := by
  cases hAl : alGet (edgeKey p.1.id p.2.id) st.list with
  | some e =>
    simp only [coOccStep, hAl]
    exact alUpd_keys_sorted _ _ st.list hs
  | none =>
    simp only [coOccStep, hAl]
    intro kv hkv
    rcases List.mem_append.mp hkv with h | h
    · exact hs kv h
    · have he := List.mem_singleton.mp h
      subst he
      exact edgeKey_sorted _ _

theorem coOccPairs_sorted (gen : Nat → Nat) (cid snip : Str) :
    ∀ (ps : List (EntityNode × EntityNode)) (st : EdgeAcc),
      (∀ kv ∈ st.list, kv.1.1 ≤ kv.1.2) →
      ∀ kv ∈ (coOccPairs gen cid snip ps st).list, kv.1.1 ≤ kv.1.2 := by
  intro ps
  induction ps with
  | nil => intro st hs; exact hs
  | cons p t ih =>
    intro st hs
    exact ih _ (coOccStep_sorted gen cid snip st hs p)

theorem coOccParas_sorted (gen : Nat → Nat) (cid text : Str) (entities : List EntityNode) :
    ∀ (ps : List ClassifiedParagraph) (st : EdgeAcc),
      (∀ kv ∈ st.list, kv.1.1 ≤ kv.1.2) →
      ∀ kv ∈ (coOccParas gen cid text entities ps st).list, kv.1.1 ≤ kv.1.2 := by
  intro ps
  induction ps with
  | nil => intro st hs; exact hs
  | cons para t ih =>
    intro st hs
    exact ih _ (coOccPairs_sorted gen cid _ _ st hs)

theorem relStep_sorted (gen : Nat → Nat) (cid : Str) (ty : RelationshipType)
    (matched : Str) (e1 e2 : EntityNode) (st : EdgeAcc)
    (hs : ∀ kv ∈ st.list, kv.1.1 ≤ kv.1.2) :
    ∀ kv ∈ (relStep gen cid ty matched e1 e2 st).list, kv.1.1 ≤ kv.1.2 := by
  cases hAl : alGet (edgeKey e1.id e2.id) st.list with
  | some e =>
    simp only [relStep, hAl]
    exact alUpd_keys_sorted _ _ st.list hs
  | none =>
    simp only [relStep, hAl]
    intro kv hkv
    rcases List.mem_append.mp hkv with h | h
    · exact hs kv h
    · have he := List.mem_singleton.mp h
      subst he
      exact edgeKey_sorted _ _

theorem relMatches_sorted (gen : Nat → Nat) (cid text : Str)
    (entities : List EntityNode) (entityNames : List Str) (ty : RelationshipType) :
    ∀ (ms : List MatchRes) (st : EdgeAcc),
      (∀ kv ∈ st.list, kv.1.1 ≤ kv.1.2) →
      ∀ kv ∈ (relMatches gen cid text entities entityNames ty ms st).list,
        kv.1.1 ≤ kv.1.2 := by
  intro ms
  induction ms with
  | nil => intro st hs; exact hs
  | cons m t ih =>
    intro st hs
    simp only [relMatches]
    apply ih
    split
    · split
      · exact relStep_sorted _ _ _ _ _ _ _ hs
      · exact hs
    · exact hs

theorem relPatterns_sorted (gen : Nat → Nat) (cid text : Str)
    (entities : List EntityNode) (entityNames : List Str) :
    ∀ (ps : List (Rx × RelationshipType)) (st : EdgeAcc),
      (∀ kv ∈ st.list, kv.1.1 ≤ kv.1.2) →
      ∀ kv ∈ (relPatterns gen cid text entities entityNames ps st).list,
        kv.1.1 ≤ kv.1.2 := by
  intro ps
  induction ps with
  | nil => intro st hs; exact hs
  | cons p t ih =>
    obtain ⟨r, ty⟩ := p
    intro st hs
    exact ih _ (relMatches_sorted gen cid text entities entityNames ty (execAll r text) st hs)

theorem coOccStep_map (gen : Nat → Nat) (hinj : Function.Injective gen) (cid snip : Str)
    (st : EdgeAcc) (hs : ∀ kv ∈ st.list, kv.1.1 ≤ kv.1.2) (a b : EntityNode) :
    coOccStep gen cid snip
        ⟨st.list.map (fun kv => (kmap gen kv.1, mapEdgeId gen kv.2)), st.ctr⟩
        (mapNodeId gen a, mapNodeId gen b) =
      ⟨(coOccStep idStream cid snip st (a, b)).list.map
          (fun kv => (kmap gen kv.1, mapEdgeId gen kv.2)),
       (coOccStep idStream cid snip st (a, b)).ctr⟩ := by
  have hkey : edgeKey (mapNodeId gen a).id (mapNodeId gen b).id =
      kmap gen (edgeKey a.id b.id) := edgeKey_map gen a.id b.id
  have hget := alGet_emap gen hinj (edgeKey a.id b.id) (edgeKey_sorted a.id b.id) st.list hs
  cases hAl : alGet (edgeKey a.id b.id) st.list with
  | some e =>
    rw [hAl, Option.map_some'] at hget
    simp only [coOccStep, hkey, hget, hAl]
    refine congrArg (fun l => EdgeAcc.mk l st.ctr) ?_
    exact alUpd_emap gen hinj (edgeKey a.id b.id) (edgeKey_sorted a.id b.id)
      (fun e =>
        let e1 := { e with coOccurrences := e.coOccurrences + 1 }
        if e1.chapters.contains cid then e1
        else { e1 with chapters := e1.chapters ++ [cid] })
      (fun e =>
        let e1 := { e with coOccurrences := e.coOccurrences + 1 }
        if e1.chapters.contains cid then e1
        else { e1 with chapters := e1.chapters ++ [cid] })
      (fun b0 => by
        dsimp only [mapEdgeId]
        split_ifs <;> rfl)
      st.list hs
  | none =>
    rw [hAl, Option.map_none'] at hget
    simp only [coOccStep, hkey, hget, hAl, List.map_append]
    rfl

theorem coOccPairs_map (gen : Nat → Nat) (hinj : Function.Injective gen) (cid snip : Str) :
    ∀ (ps : List (EntityNode × EntityNode)) (st : EdgeAcc),
      (∀ kv ∈ st.list, kv.1.1 ≤ kv.1.2) →
      coOccPairs gen cid snip (ps.map (fun p => (mapNodeId gen p.1, mapNodeId gen p.2)))
          ⟨st.list.map (fun kv => (kmap gen kv.1, mapEdgeId gen kv.2)), st.ctr⟩ =
        ⟨(coOccPairs idStream cid snip ps st).list.map
            (fun kv => (kmap gen kv.1, mapEdgeId gen kv.2)),
         (coOccPairs idStream cid snip ps st).ctr⟩ := by
  intro ps
  induction ps with
  | nil => intro st hs; rfl
  | cons p t ih =>
    intro st hs
    have h1 : coOccPairs gen cid snip
        ((p :: t).map (fun p => (mapNodeId gen p.1, mapNodeId gen p.2)))
        ⟨st.list.map (fun kv => (kmap gen kv.1, mapEdgeId gen kv.2)), st.ctr⟩ =
        coOccPairs gen cid snip (t.map (fun p => (mapNodeId gen p.1, mapNodeId gen p.2)))
          (coOccStep gen cid snip
            ⟨st.list.map (fun kv => (kmap gen kv.1, mapEdgeId gen kv.2)), st.ctr⟩
            (mapNodeId gen p.1, mapNodeId gen p.2)) := rfl
    rw [h1, coOccStep_map gen hinj cid snip st hs p.1 p.2]
    have h2 := ih (coOccStep idStream cid snip st (p.1, p.2))
      (coOccStep_sorted idStream cid snip st hs (p.1, p.2))
    rw [h2]
    rfl

theorem coOccParas_map (gen : Nat → Nat) (hinj : Function.Injective gen)
    (cid text : Str) (entities : List EntityNode) :
    ∀ (ps : List ClassifiedParagraph) (st : EdgeAcc),
      (∀ kv ∈ st.list, kv.1.1 ≤ kv.1.2) →
      coOccParas gen cid text (entities.map (mapNodeId gen)) ps
          ⟨st.list.map (fun kv => (kmap gen kv.1, mapEdgeId gen kv.2)), st.ctr⟩ =
        ⟨(coOccParas idStream cid text entities ps st).list.map
            (fun kv => (kmap gen kv.1, mapEdgeId gen kv.2)),
         (coOccParas idStream cid text entities ps st).ctr⟩ := by
  intro ps
  induction ps with
  | nil => intro st hs; rfl
  | cons para t ih =>
    intro st hs
    have hpres : (entities.map (mapNodeId gen)).filter
        (fun e => strHas (lowerS (seg text para.offset (para.offset + para.length)))
          (lowerS e.name)) =
        (entities.filter
          (fun e => strHas (lowerS (seg text para.offset (para.offset + para.length)))
            (lowerS e.name))).map (mapNodeId gen) :=
      filter_map_comm _ _ _ (fun x => rfl) entities
    simp only [coOccParas, hpres, ordPairs_map]
    rw [coOccPairs_map gen hinj cid _
      (ordPairs (entities.filter
        (fun e => strHas (lowerS (seg text para.offset (para.offset + para.length)))
          (lowerS e.name)))) st hs]
    exact ih _ (coOccPairs_sorted idStream cid _ _ st hs)

theorem relStep_map (gen : Nat → Nat) (hinj : Function.Injective gen) (cid : Str)
    (ty : RelationshipType) (matched : Str) (e1 e2 : EntityNode) (st : EdgeAcc)
    (hs : ∀ kv ∈ st.list, kv.1.1 ≤ kv.1.2) :
    relStep gen cid ty matched (mapNodeId gen e1) (mapNodeId gen e2)
        ⟨st.list.map (fun kv => (kmap gen kv.1, mapEdgeId gen kv.2)), st.ctr⟩ =
      ⟨(relStep idStream cid ty matched e1 e2 st).list.map
          (fun kv => (kmap gen kv.1, mapEdgeId gen kv.2)),
       (relStep idStream cid ty matched e1 e2 st).ctr⟩ := by
  have hkey : edgeKey (mapNodeId gen e1).id (mapNodeId gen e2).id =
      kmap gen (edgeKey e1.id e2.id) := edgeKey_map gen e1.id e2.id
  have hget := alGet_emap gen hinj (edgeKey e1.id e2.id) (edgeKey_sorted e1.id e2.id) st.list hs
  cases hAl : alGet (edgeKey e1.id e2.id) st.list with
  | some e =>
    rw [hAl, Option.map_some'] at hget
    simp only [relStep, hkey, hget, hAl]
    refine congrArg (fun l => EdgeAcc.mk l st.ctr) ?_
    exact alUpd_emap gen hinj (edgeKey e1.id e2.id) (edgeKey_sorted e1.id e2.id)
      (fun e =>
        let eU := if e.type == RelationshipType.interacts then { e with type := ty } else e
        { eU with evidence := eU.evidence ++ [matched] })
      (fun e =>
        let eU := if e.type == RelationshipType.interacts then { e with type := ty } else e
        { eU with evidence := eU.evidence ++ [matched] })
      (fun b0 => by
        dsimp only [mapEdgeId]
        split_ifs <;> rfl)
      st.list hs
  | none =>
    rw [hAl, Option.map_none'] at hget
    simp only [relStep, hkey, hget, hAl, List.map_append]
    rfl

theorem relMatches_map (gen : Nat → Nat) (hinj : Function.Injective gen) (cid text : Str)
    (entities : List EntityNode) (entityNames : List Str) (ty : RelationshipType) :
    ∀ (ms : List MatchRes) (st : EdgeAcc),
      (∀ kv ∈ st.list, kv.1.1 ≤ kv.1.2) →
      relMatches gen cid text (entities.map (mapNodeId gen)) entityNames ty ms
          ⟨st.list.map (fun kv => (kmap gen kv.1, mapEdgeId gen kv.2)), st.ctr⟩ =
        ⟨(relMatches idStream cid text entities entityNames ty ms st).list.map
            (fun kv => (kmap gen kv.1, mapEdgeId gen kv.2)),
         (relMatches idStream cid text entities entityNames ty ms st).ctr⟩ := by
  intro ms
  induction ms with
  | nil => intro st hs; rfl
  | cons m t ih =>
    intro st hs
    have hf1 : (entities.map (mapNodeId gen)).find?
        (fun e => lowerS e.name == lowerS (normalizeEntityName ((m.grp? text 1).getD []))) =
        (entities.find?
          (fun e => lowerS e.name ==
            lowerS (normalizeEntityName ((m.grp? text 1).getD [])))).map (mapNodeId gen) :=
      find?_map_comm _ _ _ (fun x => rfl) entities
    have hf2 : (entities.map (mapNodeId gen)).find?
        (fun e => lowerS e.name == lowerS (normalizeEntityName ((m.grp? text 2).getD []))) =
        (entities.find?
          (fun e => lowerS e.name ==
            lowerS (normalizeEntityName ((m.grp? text 2).getD [])))).map (mapNodeId gen) :=
      find?_map_comm _ _ _ (fun x => rfl) entities
    simp only [relMatches, hf1, hf2]
    split_ifs with hc
    · cases h1 : entities.find?
          (fun e => lowerS e.name == lowerS (normalizeEntityName ((m.grp? text 1).getD []))) with
      | none =>
        cases h2 : entities.find?
            (fun e => lowerS e.name ==
              lowerS (normalizeEntityName ((m.grp? text 2).getD []))) with
        | none => simp only [Option.map_none']; exact ih st hs
        | some e2 => simp only [Option.map_none', Option.map_some']; exact ih st hs
      | some e1 =>
        cases h2 : entities.find?
            (fun e => lowerS e.name ==
              lowerS (normalizeEntityName ((m.grp? text 2).getD []))) with
        | none => simp only [Option.map_none', Option.map_some']; exact ih st hs
        | some e2 =>
          simp only [Option.map_some']
          rw [relStep_map gen hinj cid ty (m.whole text) e1 e2 st hs]
          exact ih _ (relStep_sorted idStream cid ty (m.whole text) e1 e2 st hs)
    · exact ih st hs

theorem relPatterns_map (gen : Nat → Nat) (hinj : Function.Injective gen) (cid text : Str)
    (entities : List EntityNode) (entityNames : List Str) :
    ∀ (ps : List (Rx × RelationshipType)) (st : EdgeAcc),
      (∀ kv ∈ st.list, kv.1.1 ≤ kv.1.2) →
      relPatterns gen cid text (entities.map (mapNodeId gen)) entityNames ps
          ⟨st.list.map (fun kv => (kmap gen kv.1, mapEdgeId gen kv.2)), st.ctr⟩ =
        ⟨(relPatterns idStream cid text entities entityNames ps st).list.map
            (fun kv => (kmap gen kv.1, mapEdgeId gen kv.2)),
         (relPatterns idStream cid text entities entityNames ps st).ctr⟩ := by
  intro ps
  induction ps with
  | nil => intro st hs; rfl
  | cons p t ih =>
    obtain ⟨r, ty⟩ := p
    intro st hs
    have h1 : relPatterns gen cid text (entities.map (mapNodeId gen)) entityNames
        ((r, ty) :: t)
        ⟨st.list.map (fun kv => (kmap gen kv.1, mapEdgeId gen kv.2)), st.ctr⟩ =
        relPatterns gen cid text (entities.map (mapNodeId gen)) entityNames t
          (relMatches gen cid text (entities.map (mapNodeId gen)) entityNames ty
            (execAll r text)
            ⟨st.list.map (fun kv => (kmap gen kv.1, mapEdgeId gen kv.2)), st.ctr⟩) := rfl
    rw [h1, relMatches_map gen hinj cid text entities entityNames ty (execAll r text) st hs]
    have h2 := ih (relMatches idStream cid text entities entityNames ty (execAll r text) st)
      (relMatches_sorted idStream cid text entities entityNames ty (execAll r text) st hs)
    rw [h2]
    rfl

theorem detectRelationships_map (gen : Nat → Nat) (hinj : Function.Injective gen)
    (text : Str) (entities : List EntityNode) (paragraphs : List ClassifiedParagraph)
    (cid : Str) (c0 : Nat) :
    detectRelationships gen text (entities.map (mapNodeId gen)) paragraphs cid c0 =
      ((detectRelationships idStream text entities paragraphs cid c0).1.map (mapEdgeId gen),
       (detectRelationships idStream text entities paragraphs cid c0).2) := by
  have hnames : (entities.map (mapNodeId gen)).map (fun e => lowerS e.name) =
      entities.map (fun e => lowerS e.name) := by
    rw [List.map_map]
    rfl
  have hnil : ∀ kv ∈ (⟨[], c0⟩ : EdgeAcc).list, kv.1.1 ≤ kv.1.2 := by
    intro kv hkv
    exact absurd hkv (List.not_mem_nil kv)
  have hst1 : coOccParas gen cid text (entities.map (mapNodeId gen)) paragraphs ⟨[], c0⟩ =
      ⟨(coOccParas idStream cid text entities paragraphs ⟨[], c0⟩).list.map
          (fun kv => (kmap gen kv.1, mapEdgeId gen kv.2)),
       (coOccParas idStream cid text entities paragraphs ⟨[], c0⟩).ctr⟩ :=
    coOccParas_map gen hinj cid text entities paragraphs ⟨[], c0⟩ hnil
  have hsort1 : ∀ kv ∈ (coOccParas idStream cid text entities paragraphs
      (⟨[], c0⟩ : EdgeAcc)).list, kv.1.1 ≤ kv.1.2 :=
    coOccParas_sorted idStream cid text entities paragraphs ⟨[], c0⟩ hnil
  simp only [detectRelationships, hnames, hst1]
  rw [relPatterns_map gen hinj cid text entities (entities.map (fun e => lowerS e.name))
    RELATIONSHIP_PATTERNS (coOccParas idStream cid text entities paragraphs ⟨[], c0⟩) hsort1]
  simp only [List.map_map]
  rfl

/-- Every run of the pipeline factors through the run with the identity id
stream: the only effect of the id stream on the output is a relabelling of
the id fields. -/
theorem extractEntities_map (gen : Nat → Nat) (hinj : Function.Injective gen)
    (text : Str) (paragraphs : List ClassifiedParagraph) (dialogues : List DialogueLine)
    (cid : Str) :
    extractEntities gen text paragraphs dialogues cid =
      (extractEntities idStream text paragraphs dialogues cid).map (mapGraphIds gen) := by
  simp only [extractEntities, detectAliases,
    consolidateEntities_map gen cid (allRawEntities text dialogues) 0]
  rw [detectAliases_map gen text aliasPatterns]
  cases hda : detectAliasesGo text aliasPatterns
      (consolidateEntities idStream (allRawEntities text dialogues) cid 0).1 with
  | none => rfl
  | some nodes1 =>
    simp only [Option.map_some']
    have hrp : (resolvePronounsInText text (nodes1.map (mapNodeId gen)) cid).2 =
        (resolvePronounsInText text nodes1 cid).2.map (mapNodeId gen) := by
      rw [resolvePronounsInText_map gen hinj text nodes1 cid]
    rw [hrp]
    rw [detectRelationships_map gen hinj text
      (resolvePronounsInText text nodes1 cid).2 paragraphs cid
      (consolidateEntities idStream (allRawEntities text dialogues) cid 0).2]
    rfl

-- Erasure of the opaque id fields.

/-- A node with the opaque id erased. -/
structure ErasedNode where
  name : Str
  type : EntityType
  aliases : List Str
  firstMention : Nat
  mentionCount : Nat
  mentions : List Mention
  attributes : List (Str × Str)
deriving DecidableEq

/-- An edge with the three opaque id fields (id, source, target) erased. -/
structure ErasedEdge where
  type : RelationshipType
  coOccurrences : Nat
  sentiment : Int
  chapters : List Str
  evidence : List Str
deriving DecidableEq

/-- A graph with the id fields erased from every node and edge, keeping the
orderings. -/
structure ErasedGraph where
  nodes : List ErasedNode
  edges : List ErasedEdge
deriving DecidableEq

/-- Erase the id of a node, keeping every other field. -/
def eraseNode (n : EntityNode) : ErasedNode :=
  ⟨n.name, n.type, n.aliases, n.firstMention, n.mentionCount, n.mentions, n.attributes⟩

/-- Erase the id, source and target of an edge, keeping every other field. -/
def eraseEdge (e : EntityEdge) : ErasedEdge :=
  ⟨e.type, e.coOccurrences, e.sentiment, e.chapters, e.evidence⟩

/-- Erase the id fields of a whole graph. -/
def eraseGraph (g : EntityGraph) : ErasedGraph :=
  ⟨g.nodes.map eraseNode, g.edges.map eraseEdge⟩

theorem eraseGraph_mapGraphIds (gen : Nat → Nat) (g : EntityGraph) :
    eraseGraph (mapGraphIds gen g) = eraseGraph g := by
  simp only [eraseGraph, mapGraphIds, List.map_map]
  rfl

/-- C9: for a fixed text, paragraphs, dialogues and chapter id, two runs of
extractEntities that differ only in their id streams (Math.random draws,
modelled as injective streams of fresh numbers) return graphs whose nodes
and edges agree field for field, in the same order, once the opaque id
fields (node id, edge id, edge source, edge target) are erased. -/
theorem c9_extract_deterministic_up_to_ids
    (gen1 gen2 : Nat → Nat) (h1 : Function.Injective gen1) (h2 : Function.Injective gen2)
    (text : Str) (paragraphs : List ClassifiedParagraph)
    (dialogues : List DialogueLine) (cid : Str) :
    (extractEntities gen1 text paragraphs dialogues cid).map eraseGraph =
      (extractEntities gen2 text paragraphs dialogues cid).map eraseGraph := by
  rw [extractEntities_map gen1 h1 text paragraphs dialogues cid,
    extractEntities_map gen2 h2 text paragraphs dialogues cid]
  cases extractEntities idStream text paragraphs dialogues cid with
  | none => rfl
  | some g => simp only [Option.map_some', eraseGraph_mapGraphIds]

/-- The C9 theorem applied at two concrete injective id streams on the
two-character text. -/
theorem c9_extract_deterministic_up_to_ids_witness :
    Function.Injective idStream ∧ Function.Injective Nat.succ ∧
      (extractEntities idStream textTomAnn [paraTomAnn] [] chap1).map eraseGraph =
        (extractEntities Nat.succ textTomAnn [paraTomAnn] [] chap1).map eraseGraph :=
  ⟨fun _ _ h => h, fun _ _ h => Nat.succ_injective h,
   c9_extract_deterministic_up_to_ids idStream Nat.succ (fun _ _ h => h)
     (fun _ _ h => Nat.succ_injective h) textTomAnn [paraTomAnn] [] chap1⟩

-- ─────────────────────────────────────────────────────────────────────────
-- C4 amended: firstMention is the offset of the first recorded mention,
-- in scan order, not the minimum offset over the mentions.
-- ─────────────────────────────────────────────────────────────────────────

/-- The amended first-mention invariant: firstMention equals the offset of
the first entry of the mentions list (recording order). -/
abbrev FirstHead (n : EntityNode) : Prop :=
  n.mentions.head?.map Mention.offset = some n.firstMention

/-- C4 (amended): in every graph returned by extractEntities, firstMention
is the offset of the FIRST RECORDED mention of the node, in scan order.
Because candidates are scanned pattern by pattern rather than by position,
this is not the minimum offset over the mentions, as the counterexample
shows. -/
theorem c4_firstMention_head_amended (gen : Nat → Nat) (text : Str)
    (paragraphs : List ClassifiedParagraph) (dialogues : List DialogueLine)
    (chapterId : Str) (g : EntityGraph)
    (h : extractEntities gen text paragraphs dialogues chapterId = some g) :
    ∀ n ∈ g.nodes, n.mentions.head?.map Mention.offset = some n.firstMention := by
  intro n hn
  rcases extractEntities_some_elim h with ⟨nodes1, hal, hne, _⟩
  rw [hne] at hn
  have hupd : ∀ (e : EntityNode) (off : Nat), FirstHead e →
      FirstHead { e with mentionCount := e.mentionCount + 1,
                         mentions := e.mentions ++ [⟨off, chapterId⟩] } := by
    intro e off he
    simp only [FirstHead] at he ⊢
    cases hm : e.mentions with
    | nil => rw [hm] at he; simp at he
    | cons a t =>
      rw [hm] at he
      simpa using he
  have hcons : ∀ m ∈ (consolidateEntities gen (allRawEntities text dialogues) chapterId 0).1,
      FirstHead m := by
    refine consolidateEntities_forall gen chapterId hupd ?_ _ _
    intro i name ty off
    simp [FirstHead]
  have halias : ∀ m ∈ nodes1, FirstHead m := by
    refine detectAliasesGo_forall text ?_ aliasPatterns _ _ hal hcons
    intro e al he
    simpa only [FirstHead] using he
  have hP2 : ∀ (e : EntityNode) (off : Nat), FirstHead e →
      FirstHead { e with mentions := e.mentions ++ [⟨off, chapterId⟩],
                         mentionCount := e.mentionCount + 1 } :=
    fun e off he => hupd e off he
  exact resolvePronounsInText_forall text chapterId hP2 nodes1 halias n hn

/-- The C4 amended theorem checked on a node of a concrete extraction. -/
theorem c4_firstMention_head_amended_witness :
    nTom.mentions.head?.map Mention.offset = some nTom.firstMention :=
  c4_firstMention_head_amended idStream textTomAnn [paraTomAnn] [] chap1 gTomAnn
    extract_tomAnn_eval nTom (by decide)

end DraftSmith
